import Mathlib

/- Verification development for the pycuber cube module (src/pycuber/cube.py).

   Shallow embedding conventions:
   * `Square` objects carry only a colour (the `parent`/`children` bookkeeping
     attributes never influence equality, hashing or the rotation engine, and
     squares are never mutated in place, so squares are modelled by `Colour`).
   * A `Cuboid` facings dictionary is modelled as a function
     `Face -> Option Colour`; Python dict equality on `FrozenDict` is exactly
     function equality of this representation.  The `location` string is used
     by the source only through its set of letters and its length, so it is
     derived as the support of the facings function.
   * `Cube.children` is a Python set of cuboids; it is modelled as a list in a
     fixed (construction) order.  Every place the source iterates over the set,
     the final result is independent of iteration order on the states the
     claims quantify over (one piece per location), which keeps the list model
     faithful.
   * Python exceptions are modelled by `Except PyError`.
   * The move description type `Step` comes from the excluded move-notation
     collaborator (pycuber/algorithm.py, not under src/); it is modelled from
     the spec as a record of a face designator plus `inverse`/`double` flags,
     and the sub-move strings in the wide/whole-cube expansion table are
     transcribed as such records. -/

set_option maxHeartbeats 4000000

inductive Colour
  | red | yellow | green | white | orange | blue | unknown
  deriving DecidableEq

inductive Face
  | L | U | F | D | R | B
  deriving DecidableEq

inductive PieceType
  | centre | edge | corner
  deriving DecidableEq

inductive PyError
  | valueError (msg : String)
  | keyError (msg : String)
  | typeError (msg : String)
  | attributeError (msg : String)
  | unboundLocalError
  deriving DecidableEq

def Face.all : List Face := [.L, .U, .F, .D, .R, .B]

instance : Fintype Face :=
  ⟨⟨(Face.all : Multiset Face), by decide⟩, fun x => by cases x <;> decide⟩

instance exceptDecEq {ε α : Type} [DecidableEq ε] [DecidableEq α] :
    DecidableEq (Except ε α) := fun x y =>
  match x, y with
  | .ok a, .ok b =>
    if h : a = b then isTrue (by rw [h]) else isFalse (fun hc => h (by cases hc; rfl))
  | .error a, .error b =>
    if h : a = b then isTrue (by rw [h]) else isFalse (fun hc => h (by cases hc; rfl))
  | .ok _, .error _ => isFalse (fun hc => by cases hc)
  | .error _, .ok _ => isFalse (fun hc => by cases hc)

/- ------------------------------------------------------------------ -/
/- Square (sticker)                                                    -/
/- ------------------------------------------------------------------ -/

/-- The colour-name table accepted by Square.__init__ (cube.py line 15). -/
def colourNames : List (String × Colour) :=
  [("red", .red), ("yellow", .yellow), ("green", .green), ("white", .white),
   ("orange", .orange), ("blue", .blue), ("unknown", .unknown)]

/-- Square.__init__ called with a colour string: validates the colour name
    (cube.py lines 8-21).  Returns the colour of the constructed square. -/
def Square.init (colour : String) : Except PyError Colour :=
  match colourNames.find? (fun p => decide (p.1 = colour)) with
  | some p => .ok p.2
  | none => .error (.valueError "Square colour must be red, yellow, green, white, orange, blue or unknown")

/-- The colour_to_hex table of Square.__hash__ (cube.py lines 55-62).
    It has no entry for the unknown colour. -/
def colour_to_hex : Colour → Option Nat
  | .red => some 0xFF0000
  | .yellow => some 0xFFFF00
  | .green => some 0x00FF00
  | .white => some 0xFFFFFF
  | .orange => some 0xFFA500
  | .blue => some 0x0000FF
  | .unknown => none

/-- Square.__hash__ (cube.py lines 51-63): hash(str(self)) + colour_to_hex[colour].
    The Python string hash is opaque (seeded), so it is a parameter; a missing
    table entry is a KeyError. -/
def Square.hash (strHash : Nat) (c : Colour) : Except PyError Nat :=
  match colour_to_hex c with
  | some v => .ok (strHash + v)
  | none => .error (.keyError "unknown")

/- ------------------------------------------------------------------ -/
/- Cuboid (piece)                                                      -/
/- ------------------------------------------------------------------ -/

/-- A facings dictionary: face letter to sticker colour. -/
abbrev Facings := Face → Option Colour

/-- Build a facings dictionary from key/value pairs in insertion order
    (later entries overwrite earlier ones, like a Python dict). -/
def assocToFacings (l : List (Face × Colour)) : Facings :=
  l.foldl (fun acc p => Function.update acc p.1 (some p.2)) (fun _ => none)

/-- A cuboid: the `type` tag ("centre"/"edge"/"corner", set by the subclass
    constructors; `none` models a plain Cuboid with no `type` attribute) and
    the facings dictionary. -/
structure Cuboid where
  type : Option PieceType
  facings : Facings

instance : DecidableEq Cuboid := fun a b =>
  decidable_of_iff (a.type = b.type ∧ a.facings = b.facings)
    (by cases a; cases b; simp)

/-- Effectful map over a list (the semantics of mapping a fallible operation
    over a Python sequence, failing at the first raised exception). -/
def mapME {α β : Type} (f : α → Except PyError β) : List α → Except PyError (List β)
  | [] => .ok []
  | a :: t => do
    let b ← f a
    let bs ← mapME f t
    .ok (b :: bs)

/-- The support of a facings dictionary: its key set. -/
def facSupp (fc : Facings) : Finset Face :=
  (Face.all.filter (fun g => (fc g).isSome)).toFinset

/-- Cuboid.location (cube.py line 90): the set of face letters keyed by the
    facings dictionary.  The source stores the joined string; only its set of
    letters and its length are ever consumed. -/
def Cuboid.location (cb : Cuboid) : Finset Face := facSupp cb.facings

/-- The key/value pairs of a facings dictionary, in a fixed face order. -/
def suppPairs (fc : Facings) : List (Face × Colour) :=
  Face.all.filterMap (fun g => (fc g).map (fun col => (g, col)))

/-- The faces used by a facings dictionary, in a fixed face order. -/
def suppFaces (fc : Facings) : List Face :=
  Face.all.filter (fun g => (fc g).isSome)

/-- Cuboid.copy (cube.py lines 157-177): a new piece of the same class with
    the same facings. -/
def Cuboid.copy (cb : Cuboid) : Cuboid := ⟨cb.type, cb.facings⟩

/-- Centre.__init__ (cube.py lines 184-189): exactly 1 square. -/
def Centre.init (fc : Facings) : Except PyError Cuboid :=
  if (facSupp fc).card = 1 then .ok ⟨some .centre, fc⟩
  else .error (.valueError "A Centre has 1 Square")

/-- Edge.__init__ (cube.py lines 200-204): exactly 2 squares. -/
def Edge.init (fc : Facings) : Except PyError Cuboid :=
  if (facSupp fc).card = 2 then .ok ⟨some .edge, fc⟩
  else .error (.valueError "An Edge has 2 Squares")

/-- Corner.__init__ (cube.py lines 215-219): exactly 3 squares. -/
def Corner.init (fc : Facings) : Except PyError Cuboid :=
  if (facSupp fc).card = 3 then .ok ⟨some .corner, fc⟩
  else .error (.valueError "A Corner has 3 Squares")

/-- The piece kind that a location of the given size gets. -/
def kindOfCard : Nat → Option PieceType
  | 1 => some .centre
  | 2 => some .edge
  | 3 => some .corner
  | _ => none

/-- Dispatch on the class dictionary keyed by cuboid.type, as in Cuboid.copy,
    Cube.__init__ and Cube._single_layer; a missing type attribute is an
    AttributeError. -/
def mkByType : Option PieceType → Facings → Except PyError Cuboid
  | some .centre, fc => Centre.init fc
  | some .edge, fc => Edge.init fc
  | some .corner, fc => Corner.init fc
  | none, _ => .error (.attributeError "type")

/- ------------------------------------------------------------------ -/
/- Cube container and location index                                   -/
/- ------------------------------------------------------------------ -/

/-- The cube: its set of 26 pieces (modelled as a list). -/
structure Cube where
  children : List Cuboid

instance : DecidableEq Cube := fun a b =>
  decidable_of_iff (a.children = b.children) (by cases a; cases b; simp)

/-- First piece whose location set matches the key (Cube.__getitem__ scans
    self.children testing `child & key`, which compares the key letter set
    with the facings key set). -/
def findPiece (l : List Cuboid) (k : Finset Face) : Option Cuboid :=
  l.find? (fun cb => decide (cb.location = k))

/-- Cube.__getitem__ (cube.py lines 284-291): KeyError when no piece matches. -/
def Cube.getitem (c : Cube) (k : Finset Face) : Except PyError Cuboid :=
  match findPiece c.children k with
  | some cb => .ok cb
  | none => .error (.keyError "no piece at this location")

/-- Replace the facings of the first piece whose location matches the key,
    keeping its type tag: the commit step of Cube.__setitem__ (the piece
    object is mutated in place, its type attribute untouched). -/
def replacePiece : List Cuboid → Finset Face → Facings → List Cuboid
  | [], _, _ => []
  | cb :: t, k, fc =>
    if cb.location = k then ⟨cb.type, fc⟩ :: t else cb :: replacePiece t k fc

/-- Read the type attribute of a piece; a plain Cuboid has none. -/
def typeAttr (cb : Cuboid) : Except PyError PieceType :=
  match cb.type with
  | some t => .ok t
  | none => .error (.attributeError "type")

/-- Cube.__setitem__ (cube.py lines 293-311): type check, then location-set
    check, then destructive replacement of the stored facings. -/
def Cube.setitem (c : Cube) (k : Finset Face) (v : Cuboid) : Except PyError Cube := do
  let q ← c.getitem k
  let qt ← typeAttr q
  let vt ← typeAttr v
  if qt ≠ vt then
    .error (.valueError "Replacement must have the same type")
  else do
    let q2 ← c.getitem k
    if q2.location ≠ v.location then
      .error (.valueError "Location must match the key")
    else
      .ok ⟨replacePiece c.children k v.facings⟩

/-- Cube.at_face (cube.py lines 353-360): all pieces touching a face. -/
def Cube.at_face (c : Cube) (face : Face) : List Cuboid :=
  c.children.filter (fun cb => decide (face ∈ cb.location))

/-- Cube.has_colour (cube.py lines 362-372): all pieces with a sticker of the
    given colour. -/
def Cube.has_colour (c : Cube) (colour : Colour) : List Cuboid :=
  c.children.filter (fun cb => (suppPairs cb.facings).any (fun p => decide (p.2 = colour)))

/-- Cube.select_type (cube.py lines 374-381). -/
def Cube.select_type (c : Cube) (tp : PieceType) : List Cuboid :=
  c.children.filter (fun cb => decide (cb.type = some tp))

/-- Shorthand for building a location key. -/
def fs (l : List Face) : Finset Face := l.toFinset

/-- The 26 canonical locations, in the order of the default construction loop
    (cube.py lines 233-237). -/
def canonLocs : List (Finset Face) :=
  [fs [.L,.D,.B], fs [.L,.D,.F], fs [.L,.U,.B], fs [.L,.U,.F],
   fs [.R,.D,.B], fs [.R,.D,.F], fs [.R,.U,.B], fs [.R,.U,.F],
   fs [.L,.B], fs [.L,.F], fs [.L,.U], fs [.L,.D],
   fs [.D,.B], fs [.D,.F], fs [.U,.B], fs [.U,.F],
   fs [.R,.B], fs [.R,.F], fs [.R,.U], fs [.R,.D],
   fs [.L], fs [.R], fs [.U], fs [.D], fs [.F], fs [.B]]

/-- The iteration keys of Cube.__iter__, in source order (cube.py lines 333-337). -/
def iterKeys : List (Finset Face) :=
  [fs [.B,.D,.L], fs [.F,.D,.L], fs [.U,.L,.F], fs [.U,.L,.B],
   fs [.R,.U,.F], fs [.R,.U,.B], fs [.R,.D,.B], fs [.R,.D,.F],
   fs [.L,.U], fs [.F,.U], fs [.R,.U], fs [.B,.U],
   fs [.L,.F], fs [.L,.B], fs [.R,.F], fs [.R,.B],
   fs [.F,.D], fs [.L,.D], fs [.B,.D], fs [.R,.D],
   fs [.F], fs [.U], fs [.R], fs [.L], fs [.D], fs [.B]]

/-- Cube.__iter__ (cube.py lines 328-339): the (location, piece) pairs over
    iterKeys; a missing location raises KeyError. -/
def Cube.iterList (c : Cube) : Except PyError (List (Finset Face × Cuboid)) :=
  mapME (fun k => do
    let cb ← c.getitem k
    .ok (k, cb)) iterKeys

/-- Cube.__eq__ (cube.py lines 341-345): dict(self) == dict(another), i.e. the
    pieces at every iteration key have equal facings (Cuboid.__eq__ compares
    the facings dictionaries only). -/
def Cube.dictEq (c₁ c₂ : Cube) : Prop :=
  ∀ k ∈ iterKeys,
    (c₁.getitem k).map Cuboid.facings = (c₂.getitem k).map Cuboid.facings

instance (c₁ c₂ : Cube) : Decidable (c₁.dictEq c₂) :=
  inferInstanceAs (Decidable (∀ k ∈ iterKeys, _ = _))

/- ------------------------------------------------------------------ -/
/- Cube construction (Cube.__init__)                                   -/
/- ------------------------------------------------------------------ -/

/-- A member of the collection passed to Cube.__init__: a Cuboid, or any
    non-Cuboid value (`other`). -/
inductive InitItem
  | cuboid (cb : Cuboid)
  | other

instance : DecidableEq InitItem := fun a b =>
  match a, b with
  | .cuboid xa, .cuboid xb =>
    if h : xa = xb then isTrue (by rw [h]) else isFalse (fun hc => h (by cases hc; rfl))
  | .other, .other => isTrue rfl
  | .cuboid _, .other => isFalse (fun hc => by cases hc)
  | .other, .cuboid _ => isFalse (fun hc => by cases hc)

/-- The default solved colour scheme (cube.py line 232). -/
def solvedColour : Face → Colour
  | .L => .red
  | .U => .yellow
  | .F => .green
  | .D => .white
  | .R => .orange
  | .B => .blue

/-- The default construction locations, in source order (cube.py lines 233-237). -/
def defaultLocs : List (List Face) :=
  [[.L,.D,.B], [.L,.D,.F], [.L,.U,.B], [.L,.U,.F],
   [.R,.D,.B], [.R,.D,.F], [.R,.U,.B], [.R,.U,.F],
   [.L,.B], [.L,.F], [.L,.U], [.L,.D],
   [.D,.B], [.D,.F], [.U,.B], [.U,.F],
   [.R,.B], [.R,.F], [.R,.U], [.R,.D],
   [.L], [.R], [.U], [.D], [.F], [.B]]

/-- One default piece: solved colouring at the given location. -/
def solvedPiece (ls : List Face) : Cuboid :=
  ⟨kindOfCard ls.length, assocToFacings (ls.map (fun g => (g, solvedColour g)))⟩

/-- The default piece collection built when no argument is given. -/
def defaultItems : List InitItem :=
  defaultLocs.map (fun ls => .cuboid (solvedPiece ls))

/-- Do all stickers of this facings dictionary hash?  The rebuild loop of
    Cube.__init__ adds a copy of every sticker to a set (cube.py lines
    247-249), which calls Square.__hash__ on each; the hash succeeds exactly
    when the colour is in the colour_to_hex table, so an unknown-coloured
    sticker makes the addition raise a KeyError. -/
def squaresHashable (fc : Facings) : Bool :=
  (suppPairs fc).all (fun p => (colour_to_hex p.2).isSome)

/-- A centre piece carrying an unknown-coloured sticker: constructible as a
    Piece (Square.__init__ accepts the colour), but its sticker does not hash. -/
def unknownCentre : Cuboid :=
  ⟨some .centre, assocToFacings [(Face.U, Colour.unknown)]⟩

/-- One iteration of the Cube.__init__ rebuild loop (cube.py lines 244-258):
    a non-Cuboid member is a ValueError; otherwise every sticker is copied
    into a set (lines 247-249), whose hash calls raise a KeyError on an
    unknown-coloured sticker; then child_class is assigned from the location
    length (left at its previous value when the length is not 1, 2 or 3 -
    reading it before any assignment is an UnboundLocalError), and the piece
    is rebuilt through that class. -/
def initStep (acc : Option PieceType × List Cuboid) (item : InitItem) :
    Except PyError (Option PieceType × List Cuboid) :=
  match item with
  | .other => .error (.valueError "Should use Cuboid")
  | .cuboid cb =>
    if squaresHashable cb.facings then
      let cls : Option PieceType :=
        if cb.location.card = 3 then some .corner
        else if cb.location.card = 2 then some .edge
        else if cb.location.card = 1 then some .centre
        else acc.1
      match cls with
      | none => .error .unboundLocalError
      | some pt => do
        let nc ← mkByType (some pt) cb.facings
        .ok (some pt, acc.2 ++ [nc])
    else .error (.keyError "unknown")

/-- Cube.__init__ (cube.py lines 226-258).  A missing or empty argument
    (`if not cuboids`) triggers the default solved construction; every
    collection then passes through the rebuild loop. -/
def Cube.init (input : Option (List InitItem)) : Except PyError Cube := do
  let items := match input with
    | none => defaultItems
    | some [] => defaultItems
    | some l => l
  let r ← items.foldlM initStep (none, [])
  .ok ⟨r.2⟩

/-- The default solved cube (the value produced by Cube.init none). -/
def Cube.default : Cube := ⟨defaultLocs.map solvedPiece⟩

/- ------------------------------------------------------------------ -/
/- Face projection (Cube.get_face)                                     -/
/- ------------------------------------------------------------------ -/

/-- The twelve face tokens accepted by Cube.get_face (cube.py lines 388-391). -/
def faceTokens : List String :=
  ["L", "U", "F", "D", "R", "B", "left", "up", "front", "down", "right", "back"]

/-- Python str.islower for the ASCII tokens involved: at least one cased
    character and no uppercase character. -/
def pyIsLower (s : String) : Bool :=
  s.toList.any (fun ch => ch.isLower) && !(s.toList.any (fun ch => ch.isUpper))

/-- face[0].upper() mapped back to a face letter. -/
def letterFace : String → Option Face
  | "L" => some .L
  | "U" => some .U
  | "F" => some .F
  | "D" => some .D
  | "R" => some .R
  | "B" => some .B
  | _ => none

/-- Normalise a validated face token (cube.py lines 393-394): a lowercase
    token is replaced by its first letter uppercased. -/
def faceTokenNorm (tok : String) : String :=
  if pyIsLower tok then ((tok.toList.headD 'L').toUpper).toString else tok

/-- The per-face neighbour ordering table of Cube.get_face (cube.py lines 396-403). -/
def faceOrdering : Face → List Face
  | .L => [.U, .D, .B, .F]
  | .R => [.U, .D, .F, .B]
  | .U => [.B, .F, .L, .R]
  | .D => [.F, .B, .L, .R]
  | .F => [.U, .D, .L, .R]
  | .B => [.U, .D, .R, .L]

/-- A 3x3 sticker grid under construction: cells default to none. -/
abbrev Grid := Nat → Nat → Option Colour

def emptyGrid : Grid := fun _ _ => none

def setCell (g : Grid) (r c : Nat) (v : Colour) : Grid :=
  fun r2 c2 => if r2 = r ∧ c2 = c then some v else g r2 c2

/-- Write into one component of the loc pair (loc[i] = v). -/
def setComp (loc : Option Nat × Option Nat) (i v : Nat) : Option Nat × Option Nat :=
  if i = 0 then (some v, loc.2) else (loc.1, some v)

/-- One iteration of the grid-coordinate loop of Cube.get_face
    (cube.py lines 405-414), for one facing key g of the piece. -/
def cellStep (face : Face) (tp : Option PieceType) (ord : List Face)
    (loc : Option Nat × Option Nat) (g : Face) :
    Except PyError (Option Nat × Option Nat) := do
  let tpv ← match tp with
    | some t => .ok t
    | none => .error (.attributeError "type")
  let loc := if tpv = .centre then (some 1, some 1) else loc
  if g = face then
    .ok loc
  else
    match tpv with
    | .centre => .ok loc
    | .edge =>
      match ord.findIdx? (fun x => decide (x = g)) with
      | none => .error (.valueError "face is not in the ordering")
      | some i =>
        let loc := setComp loc (i / 2) ((i % 2) * 2)
        match loc with
        | (none, b) => .ok (some 1, b)
        | (a, none) => .ok (a, some 1)
        | _ => .error (.valueError "None is not in list")
    | .corner =>
      match ord.findIdx? (fun x => decide (x = g)) with
      | none => .error (.valueError "face is not in the ordering")
      | some i => .ok (setComp loc (i / 2) ((i % 2) * 2))

/-- The grid coordinate of one piece on a face (cube.py lines 405-414);
    a coordinate left unresolved is the TypeError of indexing with None. -/
def cellOf (face : Face) (cb : Cuboid) : Except PyError (Nat × Nat) := do
  let loc ← (suppFaces cb.facings).foldlM (cellStep face cb.type (faceOrdering face)) (none, none)
  match loc with
  | (some r, some col) => .ok (r, col)
  | _ => .error (.typeError "list indices must be integers, not NoneType")

/-- The body of Cube.get_face after token validation (cube.py lines 395-416). -/
def faceGrid (c : Cube) (face : Face) : Except PyError Grid :=
  (c.at_face face).foldlM
    (fun grid cb => do
      let rc ← cellOf face cb
      match cb.facings face with
      | some col => .ok (setCell grid rc.1 rc.2 col)
      | none => .error (.keyError "face"))
    emptyGrid

/-- Cube.get_face (cube.py lines 383-416): validate the face token, normalise
    it, and build the 3x3 grid. -/
def Cube.get_face (c : Cube) (tok : String) : Except PyError Grid :=
  if tok ∈ faceTokens then
    match letterFace (faceTokenNorm tok) with
    | some face => faceGrid c face
    | none => .error (.keyError "ordering")
  else
    .error (.valueError "Face must be L U F D R B")

/-- The nine cells of a grid, row-major. -/
def gridCells (g : Grid) : List (Option Colour) :=
  [g 0 0, g 0 1, g 0 2, g 1 0, g 1 1, g 1 2, g 2 0, g 2 1, g 2 2]

/-- The rightmost column of a grid, top to bottom. -/
def rightCol (g : Grid) : List (Option Colour) :=
  [g 0 2, g 1 2, g 2 2]

/- ------------------------------------------------------------------ -/
/- Moves                                                               -/
/- ------------------------------------------------------------------ -/

/-- The face designators of the move notation. -/
inductive StepFace
  | L | U | F | D | R | B
  | M | S | E
  | x | y | z
  | l | r | u | d | f | b
  deriving DecidableEq

/-- The eighteen face designators. -/
def StepFace.allList : List StepFace :=
  [.L, .U, .F, .D, .R, .B, .M, .S, .E, .x, .y, .z, .l, .r, .u, .d, .f, .b]

instance : Fintype StepFace :=
  ⟨⟨(StepFace.allList : Multiset StepFace), by decide⟩, fun sf => by cases sf <;> decide⟩

/-- Modelled from the spec: the move description consumed from the external
    move-notation component, a face designator plus independent inverse and
    180-degree flags. -/
structure Step where
  face : StepFace
  is_inverse : Bool
  is_180 : Bool
  deriving DecidableEq

/-- Modelled from the spec: Step.inverse() flips the rotation direction. -/
def Step.inverse (s : Step) : Step := ⟨s.face, !s.is_inverse, s.is_180⟩

/-- Modelled from the spec: step * 2 doubles the induced quarter turn, i.e.
    it makes the step a 180-degree step. -/
def Step.mul2 (s : Step) : Step := ⟨s.face, s.is_inverse, true⟩

/-- The outer face designator corresponding to a face letter. -/
def StepFace.ofFace : Face → StepFace
  | .L => .L
  | .U => .U
  | .F => .F
  | .D => .D
  | .R => .R
  | .B => .B

/-- The single-layer movement table of Cube._single_layer (cube.py lines
    424-434): for an outer move the turning face and the neighbour cycle, for
    a slice move the two bounding faces and the cycle. -/
def slMovement : StepFace → Option ((Face ⊕ Face × Face) × List Face)
  | .U => some (.inl .U, [.R, .F, .L, .B])
  | .D => some (.inl .D, [.L, .F, .R, .B])
  | .R => some (.inl .R, [.F, .U, .B, .D])
  | .L => some (.inl .L, [.F, .D, .B, .U])
  | .F => some (.inl .F, [.U, .R, .D, .L])
  | .B => some (.inl .B, [.U, .L, .D, .R])
  | .M => some (.inr (.L, .R), [.F, .D, .B, .U])
  | .S => some (.inr (.F, .B), [.U, .R, .D, .L])
  | .E => some (.inr (.U, .D), [.L, .F, .R, .B])
  | _ => none

/-- Is this facing key the turning face itself (the `f != step.face` test)?
    A slice designator never equals a face letter. -/
def keepFace : Face ⊕ Face × Face → Face → Bool
  | .inl f, g => decide (f = g)
  | .inr _, _ => false

/-- The facing remap of one key (cube.py line 448):
    movement[(movement.index(f) + step.is_180 + 1) % 4], the turning face
    itself being kept (line 450); a key outside the cycle is the ValueError
    of list.index. -/
def remapFace (mv : List Face) (shift : Nat) (sel : Face ⊕ Face × Face) (g : Face) :
    Except PyError Face :=
  if keepFace sel g then .ok g
  else
    match mv.findIdx? (fun x => decide (x = g)) with
    | some i => .ok (mv.getD ((i + shift) % 4) g)
    | none => .error (.valueError "face is not in the movement cycle")

/-- The cycle data of a single-layer step: the turning-face selector, the
    neighbour cycle (reversed when the step is inverse, cube.py line 436) and
    the index shift step.is_180 + 1 (cube.py line 448). -/
def stepParams (s : Step) : Option ((Face ⊕ Face × Face) × List Face × Nat) :=
  match slMovement s.face with
  | none => none
  | some (sel, mv0) =>
    some (sel, (if s.is_inverse then mv0.reverse else mv0), (if s.is_180 then 1 else 0) + 1)

/-- The facing remap performed by a single-layer step on one facing key. -/
def remapOfStep (s : Step) (g : Face) : Except PyError Face :=
  match stepParams s with
  | none => .error (.keyError "movement")
  | some (sel, mv, shift) => remapFace mv shift sel g

/-- The new facings dictionary entries of one moved piece (cube.py lines 445-450). -/
def newAssoc (s : Step) (fc : Facings) : Except PyError (List (Face × Colour)) :=
  mapME (fun p => do
    let g ← remapOfStep s p.1
    .ok (g, p.2)) (suppPairs fc)

/-- Build the replacement piece for one moved piece (cube.py lines 444-459):
    remap the facings and construct a piece of the same class. -/
def mkNewCuboid (s : Step) (cb : Cuboid) : Except PyError Cuboid := do
  let assoc ← newAssoc s cb.facings
  mkByType cb.type (assocToFacings assoc)

/-- Cube._single_layer (cube.py lines 418-461): select the affected pieces
    (snapshot copies), then for each compute the replacement piece and commit
    it through Cube.__setitem__ at its new location. -/
def Cube._single_layer (c : Cube) (s : Step) : Except PyError Cube :=
  match slMovement s.face with
  | none => .error (.keyError "movement")
  | some (sel, _) =>
    let to_move : List Cuboid :=
      match sel with
      | .inl face => (c.at_face face).map Cuboid.copy
      | .inr (a, b) =>
        (c.children.filter
          (fun cb => !(decide (a ∈ cb.location)) && !(decide (b ∈ cb.location)))).map Cuboid.copy
    to_move.foldlM
      (fun cube cb => do
        let nc ← mkNewCuboid s cb
        cube.setitem nc.location nc)
      c

/-- The wide/whole-cube expansion table of Cube._other_rotations (cube.py
    lines 469-479), sub-move strings transcribed as Step records. -/
def wideMovement : StepFace → Option (List Step)
  | .x => some [⟨.L, true, false⟩, ⟨.M, true, false⟩, ⟨.R, false, false⟩]
  | .y => some [⟨.U, false, false⟩, ⟨.E, true, false⟩, ⟨.D, true, false⟩]
  | .z => some [⟨.F, false, false⟩, ⟨.S, false, false⟩, ⟨.B, true, false⟩]
  | .r => some [⟨.R, false, false⟩, ⟨.M, true, false⟩]
  | .l => some [⟨.L, false, false⟩, ⟨.M, false, false⟩]
  | .u => some [⟨.U, false, false⟩, ⟨.E, true, false⟩]
  | .d => some [⟨.D, false, false⟩, ⟨.E, false, false⟩]
  | .f => some [⟨.F, false, false⟩, ⟨.S, false, false⟩]
  | .b => some [⟨.B, false, false⟩, ⟨.S, true, false⟩]
  | _ => none

/-- Cube._other_rotations (cube.py lines 463-485): expand the move and apply
    each sub-move, inverted when the move is inverse, else doubled when the
    move is a 180 (note the elif in the source: when both flags are set only
    the inversion is applied). -/
def Cube._other_rotations (c : Cube) (s : Step) : Except PyError Cube :=
  match wideMovement s.face with
  | none => .error (.keyError "movement")
  | some ms =>
    ms.foldlM
      (fun cube s0 =>
        let s1 := if s.is_inverse then s0.inverse else if s.is_180 then s0.mul2 else s0
        cube._single_layer s1)
      c

/-- The single-layer and slice designators, as in the perform_step test
    `step.face in "LUFDRBMES"` (cube.py line 497). -/
def slFaceList : List StepFace := [.L, .U, .F, .D, .R, .B, .M, .E, .S]

/-- Cube.perform_step (cube.py lines 487-500). -/
def Cube.perform_step (c : Cube) (s : Step) : Except PyError Cube :=
  if s.face ∈ slFaceList then c._single_layer s else c._other_rotations s

/-- Cube.perform_algo (cube.py lines 502-510): apply the steps left to right. -/
def Cube.perform_algo (c : Cube) (algo : List Step) : Except PyError Cube :=
  algo.foldlM Cube.perform_step c

/-- Cube.copy (cube.py lines 512-516): a new Cube built from copies of the
    pieces listed by Cube.__iter__. -/
def Cube.copy (c : Cube) : Except PyError Cube := do
  let l ← c.iterList
  Cube.init (some (l.map (fun p => .cuboid p.2.copy)))

/-- A state reachable from the default solved cube by a finite move sequence. -/
def Reachable (c : Cube) : Prop :=
  ∃ steps : List Step, Cube.default.perform_algo steps = .ok c

/- ------------------------------------------------------------------ -/
/- Abstraction: the well-formedness invariant and the view of a cube   -/
/- ------------------------------------------------------------------ -/

/-- The well-formedness invariant of a cube: the piece locations are exactly
    the 26 canonical locations (each once), and every piece carries the type
    tag its location size dictates. -/
def Cube.WF (c : Cube) : Prop :=
  (c.children.map Cuboid.location).Perm canonLocs ∧
  ∀ cb ∈ c.children, cb.type = kindOfCard cb.location.card

instance (c : Cube) : Decidable c.WF :=
  inferInstanceAs (Decidable (_ ∧ _))

/-- The view of a cube: the facings stored at each location key. -/
def Cube.view (c : Cube) (k : Finset Face) : Option Facings :=
  (findPiece c.children k).map Cuboid.facings

/-- The total version of the facing remap of a single-layer step: identity on
    the turning face and on faces outside the cycle. -/
def sig (s : Step) : Face → Face :=
  match stepParams s with
  | none => id
  | some (sel, mv, shift) =>
    fun g =>
      if keepFace sel g then g
      else
        match mv.findIdx? (fun x => decide (x = g)) with
        | some i => mv.getD ((i + shift) % 4) g
        | none => g

/-- The inverse facing remap: the remap of the direction-flipped step. -/
def sigInv (s : Step) : Face → Face := sig ⟨s.face, !s.is_inverse, s.is_180⟩

/-- Does a single-layer step affect the piece at this location?  Outer moves
    affect the pieces touching the turning face; slice moves the pieces
    touching neither bounding face. -/
def affectedB (s : Step) (k : Finset Face) : Bool :=
  match slMovement s.face with
  | some (.inl face, _) => decide (face ∈ k)
  | some (.inr (a, b), _) => !(decide (a ∈ k)) && !(decide (b ∈ k))
  | none => false

/-- Relabel a facings dictionary along a face map: the sticker shown at g was
    previously shown at tau g. -/
def relabel (τ : Face → Face) (fc : Facings) : Facings := fun g => fc (τ g)

/-- The action of a single-layer step on views, generalised over the facing
    remap: an affected location shows the relabelled facings of its source
    location. -/
def shifted (s : Step) (τ : Face → Face) (v : Finset Face → Option Facings) :
    Finset Face → Option Facings :=
  fun k => if affectedB s k then (v (k.image τ)).map (relabel τ) else v k

/-- The view-level action of a single-layer step. -/
def moveView (s : Step) (v : Finset Face → Option Facings) :
    Finset Face → Option Facings :=
  shifted s (sigInv s) v

/-- The sticker colours of one piece (in fixed face order). -/
def pieceColours (cb : Cuboid) : Multiset Colour :=
  ((suppPairs cb.facings).map Prod.snd : List Colour)

/-- The multiset of sticker colours collected over all pieces of a cube. -/
def cubeColours (c : Cube) : Multiset Colour :=
  (c.children.map pieceColours).sum

/-- The 36 single-layer step descriptions (9 designators, 2 flags each). -/
def slSteps : List Step :=
  (slFaceList.map (fun sf =>
    [⟨sf, false, false⟩, ⟨sf, true, false⟩, ⟨sf, false, true⟩, ⟨sf, true, true⟩])).flatten

/-- A quarter-turn clockwise outer step. -/
def quarter (X : Face) : Step := ⟨StepFace.ofFace X, false, false⟩

/-- A quarter-turn counter-clockwise outer step. -/
def quarterInv (X : Face) : Step := ⟨StepFace.ofFace X, true, false⟩

/-- A 180-degree outer step. -/
def half (X : Face) : Step := ⟨StepFace.ofFace X, false, true⟩

/-- Compare two move results: true when both succeeded with dict-equal cubes. -/
def stateEqB (a b : Except PyError Cube) : Bool :=
  match a, b with
  | .ok c₁, .ok c₂ => decide (c₁.dictEq c₂)
  | _, _ => false

/-- The replacement piece a single-layer step builds for one moved piece:
    same type tag, facings relabelled along the inverse remap. -/
def newPieceT (s : Step) (cb : Cuboid) : Cuboid :=
  ⟨cb.type, relabel (sigInv s) cb.facings⟩

/-- The faces whose membership the affected-piece test consults: the turning
    face of an outer move, the two bounding faces of a slice move. -/
def testedFaces (s : Step) : List Face :=
  match slMovement s.face with
  | some (.inl face, _) => [face]
  | some (.inr (a, b), _) => [a, b]
  | none => []

/-- What the Cube.__init__ rebuild loop makes of one accepted item whose
    location size is 1, 2 or 3. -/
def retypeItem : InitItem → Cuboid
  | .cuboid cb => ⟨kindOfCard cb.location.card, cb.facings⟩
  | .other => ⟨none, fun _ => none⟩

/-- The piece stored at a location, with a dummy default. -/
def pieceAtD (c : Cube) (k : Finset Face) : Cuboid :=
  match findPiece c.children k with
  | some cb => cb
  | none => ⟨none, fun _ => none⟩

/-- The sticker colours of a facings dictionary. -/
def facColours (fc : Facings) : Multiset Colour :=
  ((suppPairs fc).map Prod.snd : List Colour)

/-- The sticker colours stored at a location (empty when the location is
    unoccupied). -/
def locColours (c : Cube) (k : Finset Face) : Multiset Colour :=
  match c.view k with
  | some fc => facColours fc
  | none => 0

/- ================================================================== -/
/- Lemmas                                                              -/
/- ================================================================== -/

/- ---------- generic list lemmas ---------- -/

theorem mapME_ok_of_forall {α β : Type} (f : α → Except PyError β) (g : α → β) :
    ∀ l : List α, (∀ a ∈ l, f a = .ok (g a)) → mapME f l = .ok (l.map g) := by
  intro l
  induction l with
  | nil => intro _; rfl
  | cons a t ih =>
    intro h
    have ha := h a (by simp)
    have ht := ih (fun x hx => h x (by simp [hx]))
    simp [mapME, ha, ht]
    rfl

theorem find?_filterMap_eq {β : Type} [DecidableEq β] (fc : Face → Option β) :
    ∀ (l : List Face) (h : Face), l.Nodup → h ∈ l →
      ((l.filterMap (fun g => (fc g).map (fun col => (g, col)))).find?
          (fun p => decide (p.1 = h))) =
        (fc h).map (fun col => (h, col)) := by
  intro l
  induction l with
  | nil => intro h _ hm; cases hm
  | cons a t ih =>
    intro h hnd hm
    have hnd2 : t.Nodup := (List.nodup_cons.mp hnd).2
    have hna : a ∉ t := (List.nodup_cons.mp hnd).1
    by_cases hah : a = h
    · subst hah
      cases hfc : fc a with
      | none =>
        have hnone : (t.filterMap (fun g => (fc g).map (fun col => (g, col)))).find?
            (fun p => decide (p.1 = a)) = none := by
          apply List.find?_eq_none.mpr
          intro p hp
          rcases List.mem_filterMap.mp hp with ⟨g, hg, hgp⟩
          cases hfcg : fc g with
          | none => rw [hfcg] at hgp; cases hgp
          | some col =>
            rw [hfcg] at hgp
            simp only [Option.map_some'] at hgp
            cases hgp
            simp only [decide_eq_true_eq]
            intro hga
            exact hna (hga ▸ hg)
        simp [List.filterMap_cons, hfc, hnone]
      | some col =>
        have hpos : (decide (((a, col) : Face × β).1 = a) : Bool) = true := by simp
        simp [List.filterMap_cons, hfc, List.find?_cons_of_pos _ hpos]
    · rcases List.mem_cons.mp hm with h1 | h1
      · exact absurd h1.symm hah
      cases hfc : fc a with
      | none =>
        simp only [List.filterMap_cons, hfc]
        exact ih h hnd2 h1
      | some col =>
        rw [List.filterMap_cons, hfc]
        simp only [Option.map_some']
        have hstep : ((a, col) :: t.filterMap (fun g => (fc g).map (fun c2 => (g, c2)))).find?
            (fun p => decide (p.1 = h)) =
            (t.filterMap (fun g => (fc g).map (fun c2 => (g, c2)))).find?
              (fun p => decide (p.1 = h)) :=
          List.find?_cons_of_neg _ (by simp [hah])
        rw [hstep]
        exact ih h hnd2 h1

theorem foldl_update_eq (l : List (Face × Colour)) (g : Face) :
    ∀ init : Facings,
      (l.foldl (fun (acc : Facings) (p : Face × Colour) =>
          Function.update acc p.1 (some p.2)) init) g =
        match l.reverse.find? (fun p => decide (p.1 = g)) with
        | some p => some p.2
        | none => init g := by
  induction l with
  | nil => intro init; rfl
  | cons a t ih =>
    intro init
    simp only [List.foldl_cons, List.reverse_cons, List.find?_append]
    rw [ih]
    cases hf : t.reverse.find? (fun p => decide (p.1 = g)) with
    | some p => simp
    | none =>
      simp only [Option.none_orElse]
      by_cases hag : a.1 = g
      · rw [List.find?_cons_of_pos _ (by simp [hag])]
        simp [Function.update, hag]
      · rw [List.find?_cons_of_neg _ (by simp [hag])]
        simp only [List.find?_nil]
        simp [Function.update]
        intro h
        exact absurd h.symm hag

/- ---------- location index lemmas ---------- -/

theorem findPiece_loc {l : List Cuboid} {k : Finset Face} {q : Cuboid}
    (h : findPiece l k = some q) : q.location = k ∧ q ∈ l := by
  have h1 := List.find?_some h
  have h2 := List.mem_of_find?_eq_some h
  simp only [decide_eq_true_eq] at h1
  exact ⟨h1, h2⟩

theorem loc_unique {l : List Cuboid} (hnd : (l.map Cuboid.location).Nodup) :
    ∀ a ∈ l, ∀ b ∈ l, a.location = b.location → a = b := by
  induction l with
  | nil => intro a ha; cases ha
  | cons c t ih =>
    intro a ha b hb hab
    have hnc : c.location ∉ t.map Cuboid.location := (List.nodup_cons.mp hnd).1
    have hnd2 : (t.map Cuboid.location).Nodup := (List.nodup_cons.mp hnd).2
    rcases List.mem_cons.mp ha with ha1 | ha1 <;> rcases List.mem_cons.mp hb with hb1 | hb1
    · rw [ha1, hb1]
    · subst ha1
      exact absurd (hab ▸ List.mem_map_of_mem Cuboid.location hb1) hnc
    · subst hb1
      exact absurd (hab ▸ List.mem_map_of_mem Cuboid.location ha1) hnc
    · exact ih hnd2 a ha1 b hb1 hab

theorem findPiece_mem_nodup {l : List Cuboid} (hnd : (l.map Cuboid.location).Nodup)
    {cb : Cuboid} (hmem : cb ∈ l) : findPiece l cb.location = some cb := by
  induction l with
  | nil => cases hmem
  | cons c t ih =>
    have hnc : c.location ∉ t.map Cuboid.location := (List.nodup_cons.mp hnd).1
    have hnd2 : (t.map Cuboid.location).Nodup := (List.nodup_cons.mp hnd).2
    rcases List.mem_cons.mp hmem with h1 | h1
    · subst h1
      unfold findPiece
      rw [List.find?_cons_of_pos _ (by simp)]
    · have hne : c.location ≠ cb.location := by
        intro he
        exact hnc (he ▸ List.mem_map_of_mem Cuboid.location h1)
      unfold findPiece
      rw [List.find?_cons_of_neg _ (by simp [hne])]
      exact ih hnd2 h1

theorem findPiece_exists {l : List Cuboid} (hnd : (l.map Cuboid.location).Nodup)
    {k : Finset Face} (hk : k ∈ l.map Cuboid.location) :
    ∃ q, findPiece l k = some q ∧ q.location = k ∧ q ∈ l := by
  rcases List.mem_map.mp hk with ⟨cb, hcb, hloc⟩
  refine ⟨cb, ?_, hloc, hcb⟩
  rw [← hloc]
  exact findPiece_mem_nodup hnd hcb

theorem filter_loc_singleton {l : List Cuboid} (hnd : (l.map Cuboid.location).Nodup) :
    ∀ cb ∈ l, l.filter (fun x => decide (x.location = cb.location)) = [cb] := by
  induction l with
  | nil => intro cb h; cases h
  | cons c t ih =>
    intro cb hcb
    have hnc : c.location ∉ t.map Cuboid.location := (List.nodup_cons.mp hnd).1
    have hnd2 : (t.map Cuboid.location).Nodup := (List.nodup_cons.mp hnd).2
    rcases List.mem_cons.mp hcb with h1 | h1
    · subst h1
      rw [List.filter_cons_of_pos (by simp)]
      have : t.filter (fun x => decide (x.location = cb.location)) = [] := by
        apply List.filter_eq_nil_iff.mpr
        intro x hx
        simp only [decide_eq_true_eq]
        intro he
        exact hnc (he ▸ List.mem_map_of_mem Cuboid.location hx)
      rw [this]
    · have hne : c.location ≠ cb.location := by
        intro he
        exact hnc (he ▸ List.mem_map_of_mem Cuboid.location h1)
      rw [List.filter_cons_of_neg (by simp [hne])]
      exact ih hnd2 cb h1

theorem replacePiece_pairs {fc : Facings} {k : Finset Face} (hfc : facSupp fc = k) :
    ∀ l : List Cuboid,
      (replacePiece l k fc).map (fun cb => (cb.type, cb.location)) =
        l.map (fun cb => (cb.type, cb.location)) := by
  intro l
  induction l with
  | nil => rfl
  | cons c t ih =>
    unfold replacePiece
    by_cases hck : c.location = k
    · rw [if_pos hck]
      simp only [List.map_cons, ih]
      have : (Cuboid.mk c.type fc).location = c.location := by
        show facSupp fc = c.location
        rw [hfc, hck]
      rw [this]
    · rw [if_neg hck]
      simp only [List.map_cons, ih]

theorem replacePiece_find_same {l : List Cuboid} {k : Finset Face} {q : Cuboid}
    (hq : findPiece l k = some q) {fc : Facings} (hfc : facSupp fc = k) :
    findPiece (replacePiece l k fc) k = some ⟨q.type, fc⟩ := by
  induction l with
  | nil => cases hq
  | cons c t ih =>
    by_cases hck : c.location = k
    · unfold replacePiece
      rw [if_pos hck]
      unfold findPiece at hq ⊢
      rw [List.find?_cons_of_pos _ (by simp [hck])] at hq
      rw [List.find?_cons_of_pos _ (by simp [Cuboid.location, hfc])]
      cases hq
      rfl
    · unfold replacePiece
      rw [if_neg hck]
      unfold findPiece at hq ⊢
      rw [List.find?_cons_of_neg _ (by simp [hck])] at hq
      rw [List.find?_cons_of_neg _ (by simp [hck])]
      exact ih hq

theorem replacePiece_find_other {k k2 : Finset Face} (hne : k2 ≠ k)
    {fc : Facings} (hfc : facSupp fc = k) :
    ∀ l : List Cuboid, findPiece (replacePiece l k fc) k2 = findPiece l k2 := by
  intro l
  induction l with
  | nil => rfl
  | cons c t ih =>
    by_cases hck : c.location = k
    · unfold replacePiece
      rw [if_pos hck]
      unfold findPiece
      rw [List.find?_cons_of_neg _ (by simp [Cuboid.location, hfc, Ne.symm hne])]
      rw [List.find?_cons_of_neg _ (by simp [hck, Ne.symm hne])]
    · unfold replacePiece
      rw [if_neg hck]
      unfold findPiece at ih ⊢
      by_cases hck2 : c.location = k2
      · rw [List.find?_cons_of_pos _ (by simp [hck2]),
          List.find?_cons_of_pos _ (by simp [hck2])]
      · rw [List.find?_cons_of_neg _ (by simp [hck2]),
          List.find?_cons_of_neg _ (by simp [hck2])]
        exact ih

theorem replacePiece_no_match {k : Finset Face} {fc : Facings} :
    ∀ l : List Cuboid, findPiece l k = none → replacePiece l k fc = l := by
  intro l
  induction l with
  | nil => intro _; rfl
  | cons c t ih =>
    intro h
    unfold findPiece at h
    by_cases hck : c.location = k
    · rw [List.find?_cons_of_pos _ (by simp [hck])] at h
      cases h
    · rw [List.find?_cons_of_neg _ (by simp [hck])] at h
      unfold replacePiece
      rw [if_neg hck, ih h]

theorem except_ok_bind {ε α β : Type} (a : α) (f : α → Except ε β) :
    (Except.ok a : Except ε α) >>= f = f a := rfl

theorem setitem_ok {c : Cube} {k : Finset Face} {q v : Cuboid} {pt : PieceType}
    (hfind : findPiece c.children k = some q) (hqt : q.type = some pt)
    (hvt : v.type = some pt) (hvl : v.location = k) :
    c.setitem k v = .ok ⟨replacePiece c.children k v.facings⟩ := by
  have hgl : c.getitem k = .ok q := by
    unfold Cube.getitem
    rw [hfind]
  have hql : q.location = k := (findPiece_loc hfind).1
  unfold Cube.setitem
  rw [hgl]
  simp only [except_ok_bind, typeAttr, hqt, hvt]
  rw [if_neg (by simp : ¬ pt ≠ pt)]
  rw [if_neg (by simp [hql, hvl] : ¬ q.location ≠ v.location)]

/- ---------- finite facts about the movement tables ---------- -/

theorem canonLocs_nodup : canonLocs.Nodup := by decide

theorem iterKeys_sub : ∀ k ∈ iterKeys, k ∈ canonLocs := by decide

theorem iterKeys_perm : iterKeys.Perm canonLocs := by decide

theorem canon_card : ∀ k ∈ canonLocs, k.card = 1 ∨ k.card = 2 ∨ k.card = 3 := by decide

theorem slSteps_mem_iff : ∀ s : Step, s ∈ slSteps ↔ s.face ∈ slFaceList := by
  intro s
  cases s with
  | mk sf i d => cases i <;> cases d <;> cases sf <;> decide

theorem sig_sigInv : ∀ s ∈ slSteps, ∀ g : Face, sig s (sigInv s g) = g := by decide

theorem sigInv_sig : ∀ s ∈ slSteps, ∀ g : Face, sigInv s (sig s g) = g := by decide

theorem img_canon_sig : ∀ s ∈ slSteps, ∀ k ∈ canonLocs,
    k.image (sig s) ∈ canonLocs := by decide

theorem img_canon_sigInv : ∀ s ∈ slSteps, ∀ k ∈ canonLocs,
    k.image (sigInv s) ∈ canonLocs := by decide

theorem img_canon : ∀ s ∈ slSteps, ∀ k ∈ canonLocs,
    k.image (sig s) ∈ canonLocs ∧ k.image (sigInv s) ∈ canonLocs :=
  fun s hs k hk => ⟨img_canon_sig s hs k hk, img_canon_sigInv s hs k hk⟩

theorem remap_ok : ∀ s ∈ slSteps, ∀ k ∈ canonLocs, affectedB s k = true →
    ∀ g ∈ k, remapOfStep s g = .ok (sig s g) := by decide

theorem tested_fixed : ∀ s ∈ slSteps, ∀ g ∈ testedFaces s,
    sig s g = g ∧ sigInv s g = g := by decide

theorem aff_perm : ∀ s ∈ slSteps,
    ((canonLocs.filter (fun k => affectedB s k)).map (Finset.image (sigInv s))).Perm
      (canonLocs.filter (fun k => affectedB s k)) := by decide

theorem faces_perm : ∀ s ∈ slSteps, (Face.all.map (sigInv s)).Perm Face.all := by decide

theorem q4_id : ∀ X ∈ Face.all, ∀ g : Face,
    sigInv (quarter X) (sigInv (quarter X) (sigInv (quarter X) (sigInv (quarter X) g))) = g := by
  decide

theorem qinv4_id : ∀ X ∈ Face.all, ∀ g : Face,
    sigInv (quarterInv X) (sigInv (quarterInv X)
      (sigInv (quarterInv X) (sigInv (quarterInv X) g))) = g := by decide

theorem q_qinv_id : ∀ X ∈ Face.all, ∀ g : Face,
    sigInv (quarter X) (sigInv (quarterInv X) g) = g ∧
    sigInv (quarterInv X) (sigInv (quarter X) g) = g := by decide

theorem qq_half : ∀ X ∈ Face.all, ∀ g : Face,
    sigInv (quarter X) (sigInv (quarter X) g) = sigInv (half X) g := by decide

theorem c7_sig : ∀ sf ∈ slFaceList, ∀ g : Face,
    sigInv ⟨sf, true, true⟩ g = sigInv ⟨sf, false, true⟩ g := by decide

theorem quarter_slmem : ∀ X ∈ Face.all,
    quarter X ∈ slSteps ∧ quarterInv X ∈ slSteps ∧ half X ∈ slSteps := by decide

theorem c7_mem : ∀ sf ∈ slFaceList,
    (⟨sf, true, true⟩ : Step) ∈ slSteps ∧ (⟨sf, false, true⟩ : Step) ∈ slSteps := by decide

/- ---------- symbolic consequences ---------- -/

theorem sigInv_inj (s : Step) (hs : s ∈ slSteps) : Function.Injective (sigInv s) :=
  Function.LeftInverse.injective (g := sig s) (sig_sigInv s hs)

theorem sig_inj (s : Step) (hs : s ∈ slSteps) : Function.Injective (sig s) :=
  Function.LeftInverse.injective (g := sigInv s) (sigInv_sig s hs)

theorem image_of_pointwise_id {f : Face → Face} (hf : ∀ x, f x = x) (k : Finset Face) :
    k.image f = k := by
  have h1 : k.image f = k.image id := Finset.image_congr (fun x _ => hf x)
  rw [h1, Finset.image_id]

theorem image_sig_sigInv (s : Step) (hs : s ∈ slSteps) (k : Finset Face) :
    (k.image (sigInv s)).image (sig s) = k := by
  rw [Finset.image_image]
  exact image_of_pointwise_id (fun x => sig_sigInv s hs x) k

theorem image_sigInv_sig (s : Step) (hs : s ∈ slSteps) (k : Finset Face) :
    (k.image (sig s)).image (sigInv s) = k := by
  rw [Finset.image_image]
  exact image_of_pointwise_id (fun x => sigInv_sig s hs x) k

theorem affected_image (s : Step) (τ : Face → Face)
    (hτ : ∀ g ∈ testedFaces s, τ g = g) (hinj : Function.Injective τ) (k : Finset Face) :
    affectedB s (k.image τ) = affectedB s k := by
  have hmem : ∀ g ∈ testedFaces s, (g ∈ k.image τ ↔ g ∈ k) := by
    intro g hg
    constructor
    · intro h
      rcases Finset.mem_image.mp h with ⟨a, ha, hag⟩
      have : τ a = τ g := by rw [hag, hτ g hg]
      exact hinj this ▸ ha
    · intro h
      exact Finset.mem_image.mpr ⟨g, h, hτ g hg⟩
  unfold affectedB testedFaces at *
  cases hsl : slMovement s.face with
  | none => rfl
  | some pr =>
    rcases pr with ⟨sel, mv⟩
    cases sel with
    | inl face =>
      rw [hsl] at hmem
      simp only [List.mem_singleton, forall_eq] at hmem
      simp [hmem]
    | inr ab =>
      rcases ab with ⟨a, b⟩
      rw [hsl] at hmem
      have ha := hmem a (by simp)
      have hb := hmem b (by simp)
      simp [ha, hb]

/- ---------- facings support and the per-piece remap ---------- -/

theorem face_all_mem : ∀ g : Face, g ∈ Face.all := by decide

theorem face_all_nodup : Face.all.Nodup := by decide

theorem mem_facSupp {fc : Facings} {g : Face} : g ∈ facSupp fc ↔ (fc g).isSome := by
  simp [facSupp, List.mem_filter, face_all_mem]

theorem suppPairs_val {fc : Facings} : ∀ p ∈ suppPairs fc, fc p.1 = some p.2 := by
  intro p hp
  rcases List.mem_filterMap.mp hp with ⟨g, _, hgp⟩
  cases hfcg : fc g with
  | none => rw [hfcg] at hgp; cases hgp
  | some col =>
    rw [hfcg] at hgp
    simp only [Option.map_some'] at hgp
    cases hgp
    exact hfcg

theorem suppPairs_mem_supp {fc : Facings} : ∀ p ∈ suppPairs fc, p.1 ∈ facSupp fc := by
  intro p hp
  rw [mem_facSupp, suppPairs_val p hp]
  rfl

theorem assoc_map_sig (s : Step) (hs : s ∈ slSteps) (fc : Facings) :
    assocToFacings ((suppPairs fc).map (fun p => (sig s p.1, p.2))) =
      relabel (sigInv s) fc := by
  funext g
  unfold assocToFacings relabel
  rw [foldl_update_eq]
  rw [← List.map_reverse, List.find?_map]
  have hpred : ((fun p => decide (p.1 = g)) ∘ (fun p : Face × Colour => (sig s p.1, p.2))) =
      (fun p : Face × Colour => decide (p.1 = sigInv s g)) := by
    funext p
    simp only [Function.comp]
    apply decide_eq_decide.mpr
    constructor
    · intro h
      rw [← h, sigInv_sig s hs]
    · intro h
      rw [h, sig_sigInv s hs]
  rw [hpred]
  unfold suppPairs
  rw [← List.filterMap_reverse]
  rw [find?_filterMap_eq fc Face.all.reverse (sigInv s g)
    (by simpa using face_all_nodup) (by simp [face_all_mem])]
  cases hv : fc (sigInv s g) with
  | none => simp
  | some col => simp

theorem facSupp_relabel (s : Step) (hs : s ∈ slSteps) (fc : Facings) :
    facSupp (relabel (sigInv s) fc) = (facSupp fc).image (sig s) := by
  ext g
  rw [mem_facSupp, Finset.mem_image]
  constructor
  · intro h
    exact ⟨sigInv s g, mem_facSupp.mpr h, sig_sigInv s hs g⟩
  · rintro ⟨a, ha, rfl⟩
    show (fc (sigInv s (sig s a))).isSome
    rw [sigInv_sig s hs]
    exact mem_facSupp.mp ha

theorem mkByType_kind (pt : Option PieceType) (fc : Facings)
    (h : pt = kindOfCard (facSupp fc).card)
    (hcard : (facSupp fc).card = 1 ∨ (facSupp fc).card = 2 ∨ (facSupp fc).card = 3) :
    mkByType pt fc = .ok ⟨pt, fc⟩ := by
  rcases hcard with h1 | h1 | h1 <;> rw [h1] at h <;> subst h <;>
    simp [mkByType, kindOfCard, Centre.init, Edge.init, Corner.init, h1]

theorem mkNewCuboid_ok (s : Step) (hs : s ∈ slSteps) (cb : Cuboid)
    (hc : cb.location ∈ canonLocs) (haff : affectedB s cb.location = true)
    (htp : cb.type = kindOfCard cb.location.card) :
    mkNewCuboid s cb = .ok (newPieceT s cb) ∧
    (newPieceT s cb).location = cb.location.image (sig s) := by
  have hpair : ∀ p ∈ suppPairs cb.facings,
      (do
        let g ← remapOfStep s p.1
        Except.ok (g, p.2) : Except PyError (Face × Colour)) =
        .ok ((fun p : Face × Colour => (sig s p.1, p.2)) p) := by
    intro p hp
    have h1 : p.1 ∈ cb.location := suppPairs_mem_supp p hp
    rw [remap_ok s hs cb.location hc haff p.1 h1]
    rfl
  have hassoc : newAssoc s cb.facings =
      .ok ((suppPairs cb.facings).map (fun p : Face × Colour => (sig s p.1, p.2))) :=
    mapME_ok_of_forall _ _ _ hpair
  have hloc : (newPieceT s cb).location = cb.location.image (sig s) := by
    show facSupp (relabel (sigInv s) cb.facings) = cb.location.image (sig s)
    exact facSupp_relabel s hs cb.facings
  constructor
  · unfold mkNewCuboid
    rw [hassoc]
    simp only [except_ok_bind]
    rw [assoc_map_sig s hs]
    apply mkByType_kind
    · have hcc : (facSupp (relabel (sigInv s) cb.facings)).card = cb.location.card := by
        rw [facSupp_relabel s hs]
        exact Finset.card_image_of_injective _ (sig_inj s hs)
      rw [hcc]
      exact htp
    · have hcc : (facSupp (relabel (sigInv s) cb.facings)).card = cb.location.card := by
        rw [facSupp_relabel s hs]
        exact Finset.card_image_of_injective _ (sig_inj s hs)
      rw [hcc]
      exact canon_card cb.location hc
  · exact hloc

/- ---------- the commit loop of a single-layer move ---------- -/

theorem pairs_eq_loc_eq {l l2 : List Cuboid}
    (h : l2.map (fun cb => (cb.type, cb.location)) = l.map (fun cb => (cb.type, cb.location))) :
    l2.map Cuboid.location = l.map Cuboid.location := by
  have h2 := congrArg (List.map Prod.snd) h
  simpa [List.map_map, Function.comp] using h2

theorem foldl_commit (s : Step) :
    ∀ (tm : List Cuboid) (c : Cube),
      (c.children.map Cuboid.location).Nodup →
      (∀ cb ∈ tm, mkNewCuboid s cb = .ok (newPieceT s cb)) →
      (∀ cb ∈ tm, ∃ q pt, findPiece c.children (newPieceT s cb).location = some q ∧
          q.type = (newPieceT s cb).type ∧ (newPieceT s cb).type = some pt) →
      (tm.map (fun cb => (newPieceT s cb).location)).Nodup →
      ∃ c₂ : Cube,
        (tm.foldlM (fun cube cb => do
            let nc ← mkNewCuboid s cb
            cube.setitem nc.location nc) c) = .ok c₂ ∧
        c₂.children.map (fun cb => (cb.type, cb.location)) =
          c.children.map (fun cb => (cb.type, cb.location)) ∧
        ∀ k, c₂.view k =
          match tm.find? (fun cb => decide ((newPieceT s cb).location = k)) with
          | some cb => some (newPieceT s cb).facings
          | none => c.view k := by
  intro tm
  induction tm with
  | nil =>
    intro c hnd _ _ _
    exact ⟨c, rfl, rfl, fun k => rfl⟩
  | cons cb0 t ih =>
    intro c hnd hmk hocc hdnd
    rcases hocc cb0 (by simp) with ⟨q, pt, hq, hqt, hnpt⟩
    have hset : c.setitem (newPieceT s cb0).location (newPieceT s cb0) =
        .ok ⟨replacePiece c.children (newPieceT s cb0).location (newPieceT s cb0).facings⟩ :=
      setitem_ok hq (hqt.trans hnpt) hnpt rfl
    set np := newPieceT s cb0 with hnp
    set c₁ : Cube := ⟨replacePiece c.children np.location np.facings⟩ with hc₁
    have hsupp : facSupp np.facings = np.location := rfl
    have hpairs₁ : c₁.children.map (fun cb => (cb.type, cb.location)) =
        c.children.map (fun cb => (cb.type, cb.location)) :=
      replacePiece_pairs hsupp c.children
    have hnd₁ : (c₁.children.map Cuboid.location).Nodup := by
      rw [pairs_eq_loc_eq hpairs₁]
      exact hnd
    have hdnd_t : (t.map (fun cb => (newPieceT s cb).location)).Nodup :=
      (List.nodup_cons.mp hdnd).2
    have hd0 : np.location ∉ t.map (fun cb => (newPieceT s cb).location) :=
      (List.nodup_cons.mp hdnd).1
    have hocc_t : ∀ cb ∈ t, ∃ q2 pt2,
        findPiece c₁.children (newPieceT s cb).location = some q2 ∧
        q2.type = (newPieceT s cb).type ∧ (newPieceT s cb).type = some pt2 := by
      intro cb hcb
      rcases hocc cb (by simp [hcb]) with ⟨q2, pt2, hq2, hq2t, hnpt2⟩
      have hne : (newPieceT s cb).location ≠ np.location := by
        intro he
        exact hd0 (he ▸ List.mem_map_of_mem (fun cb => (newPieceT s cb).location) hcb)
      refine ⟨q2, pt2, ?_, hq2t, hnpt2⟩
      show findPiece (replacePiece c.children np.location np.facings)
          (newPieceT s cb).location = some q2
      rw [replacePiece_find_other hne hsupp]
      exact hq2
    rcases ih c₁ hnd₁ (fun cb hcb => hmk cb (by simp [hcb])) hocc_t hdnd_t
      with ⟨c₂, hfold, hpairs₂, hview₂⟩
    refine ⟨c₂, ?_, hpairs₂.trans hpairs₁, ?_⟩
    · show ((cb0 :: t).foldlM (fun cube cb => do
          let nc ← mkNewCuboid s cb
          cube.setitem nc.location nc) c) = .ok c₂
      rw [List.foldlM_cons]
      rw [hmk cb0 (by simp)]
      simp only [except_ok_bind]
      rw [hset]
      simp only [except_ok_bind]
      exact hfold
    · intro k
      by_cases hk : np.location = k
      · subst hk
        rw [List.find?_cons_of_pos _ (by simp)]
        have htnone : t.find? (fun cb => decide ((newPieceT s cb).location = np.location)) = none := by
          apply List.find?_eq_none.mpr
          intro cb hcb
          simp only [decide_eq_true_eq]
          intro he
          exact hd0 (he ▸ List.mem_map_of_mem (fun cb => (newPieceT s cb).location) hcb)
        rw [hview₂ np.location, htnone]
        show c₁.view np.location = some np.facings
        unfold Cube.view
        show (findPiece (replacePiece c.children np.location np.facings) np.location).map
          Cuboid.facings = some np.facings
        rw [replacePiece_find_same hq hsupp]
        rfl
      · rw [List.find?_cons_of_neg _ (by simp [hk])]
        rw [hview₂ k]
        cases hf : t.find? (fun cb => decide ((newPieceT s cb).location = k)) with
        | some cb1 => rfl
        | none =>
          show c₁.view k = c.view k
          unfold Cube.view
          show (findPiece (replacePiece c.children np.location np.facings) k).map
            Cuboid.facings = (findPiece c.children k).map Cuboid.facings
          rw [replacePiece_find_other (Ne.symm hk) hsupp]

/- ---------- the single-layer move on a well-formed cube ---------- -/

theorem slMovement_isSome : ∀ s ∈ slSteps, (slMovement s.face).isSome := by decide

theorem affected_image_sigInv (s : Step) (hs : s ∈ slSteps) (k : Finset Face) :
    affectedB s (k.image (sigInv s)) = affectedB s k :=
  affected_image s (sigInv s) (fun g hg => (tested_fixed s hs g hg).2) (sigInv_inj s hs) k

theorem affected_image_sig (s : Step) (hs : s ∈ slSteps) (k : Finset Face) :
    affectedB s (k.image (sig s)) = affectedB s k :=
  affected_image s (sig s) (fun g hg => (tested_fixed s hs g hg).1) (sig_inj s hs) k

theorem WF_nodup {c : Cube} (h : c.WF) : (c.children.map Cuboid.location).Nodup :=
  (h.1.nodup_iff).mpr canonLocs_nodup

theorem WF_mem_canon {c : Cube} (h : c.WF) {cb : Cuboid} (hcb : cb ∈ c.children) :
    cb.location ∈ canonLocs :=
  (h.1.mem_iff).mp (List.mem_map_of_mem Cuboid.location hcb)

theorem WF_loc_mem {c : Cube} (h : c.WF) {k : Finset Face} (hk : k ∈ canonLocs) :
    k ∈ c.children.map Cuboid.location :=
  (h.1.mem_iff).mpr hk

theorem newPieceT_loc (s : Step) (hs : s ∈ slSteps) (cb : Cuboid) :
    (newPieceT s cb).location = cb.location.image (sig s) :=
  facSupp_relabel s hs cb.facings

theorem kind_some_of_canon {k : Finset Face} (hk : k ∈ canonLocs) :
    ∃ pt, kindOfCard k.card = some pt := by
  rcases canon_card k hk with h | h | h <;> rw [h] <;> exact ⟨_, rfl⟩

theorem single_layer_ok (s : Step) (hs : s ∈ slSteps) (c : Cube) (hWF : c.WF) :
    ∃ c₂, c._single_layer s = .ok c₂ ∧ c₂.WF ∧
      ∀ k ∈ canonLocs, c₂.view k = moveView s c.view k := by
  have hnd : (c.children.map Cuboid.location).Nodup := WF_nodup hWF
  set tm : List Cuboid := c.children.filter (fun cb => affectedB s cb.location) with htm
  have htm_mem : ∀ cb ∈ tm, cb ∈ c.children ∧ affectedB s cb.location = true := by
    intro cb hcb
    have := List.mem_filter.mp hcb
    exact ⟨this.1, this.2⟩
  have hmk : ∀ cb ∈ tm, mkNewCuboid s cb = .ok (newPieceT s cb) := by
    intro cb hcb
    rcases htm_mem cb hcb with ⟨hmem, haff⟩
    exact (mkNewCuboid_ok s hs cb (WF_mem_canon hWF hmem) haff (hWF.2 cb hmem)).1
  have hocc : ∀ cb ∈ tm, ∃ q pt, findPiece c.children (newPieceT s cb).location = some q ∧
      q.type = (newPieceT s cb).type ∧ (newPieceT s cb).type = some pt := by
    intro cb hcb
    rcases htm_mem cb hcb with ⟨hmem, _⟩
    have hc : cb.location ∈ canonLocs := WF_mem_canon hWF hmem
    have hdest : (newPieceT s cb).location = cb.location.image (sig s) := newPieceT_loc s hs cb
    have hdc : (newPieceT s cb).location ∈ canonLocs := by
      rw [hdest]; exact (img_canon s hs cb.location hc).1
    rcases findPiece_exists hnd (WF_loc_mem hWF hdc) with ⟨q, hq, hql, hqmem⟩
    have hcard : (newPieceT s cb).location.card = cb.location.card := by
      rw [hdest]
      exact Finset.card_image_of_injective _ (sig_inj s hs)
    have hqt : q.type = (newPieceT s cb).type := by
      show q.type = cb.type
      rw [hWF.2 q hqmem, hWF.2 cb hmem, hql, hcard]
    rcases kind_some_of_canon hc with ⟨pt, hpt⟩
    refine ⟨q, pt, hq, hqt, ?_⟩
    show cb.type = some pt
    rw [hWF.2 cb hmem, hpt]
  have hdnd : (tm.map (fun cb => (newPieceT s cb).location)).Nodup := by
    have h1 : tm.map (fun cb => (newPieceT s cb).location) =
        (tm.map Cuboid.location).map (Finset.image (sig s)) := by
      rw [List.map_map]
      exact List.map_congr_left (fun cb _ => newPieceT_loc s hs cb)
    rw [h1]
    have h2 : (tm.map Cuboid.location).Nodup :=
      ((List.filter_sublist c.children).map Cuboid.location).nodup hnd
    apply h2.map
    intro k1 k2 he
    have := congrArg (Finset.image (sigInv s)) he
    rwa [image_sigInv_sig s hs, image_sigInv_sig s hs] at this
  rcases foldl_commit s tm c hnd hmk hocc hdnd with ⟨c₂, hfold, hpairs, hview⟩
  have hsl_run : c._single_layer s = tm.foldlM (fun cube cb => do
      let nc ← mkNewCuboid s cb
      cube.setitem nc.location nc) c := by
    have hiss := slMovement_isSome s hs
    cases hsl : slMovement s.face with
    | none => rw [hsl] at hiss; cases hiss
    | some pr =>
      rcases pr with ⟨sel, mv0⟩
      unfold Cube._single_layer
      rw [hsl]
      have hcopy : Cuboid.copy = fun cb => cb := funext (fun cb => rfl)
      cases sel with
      | inl face =>
        have hpred : (fun cb : Cuboid => decide (face ∈ cb.location)) =
            (fun cb : Cuboid => affectedB s cb.location) := by
          funext cb
          simp only [affectedB, hsl]
        show ((c.at_face face).map Cuboid.copy).foldlM _ c = _
        rw [hcopy]
        unfold Cube.at_face
        rw [hpred]
        simp [htm]
      | inr ab =>
        rcases ab with ⟨a, b⟩
        have hpred : (fun cb : Cuboid => !(decide (a ∈ cb.location)) && !(decide (b ∈ cb.location))) =
            (fun cb : Cuboid => affectedB s cb.location) := by
          funext cb
          simp only [affectedB, hsl]
        show (((c.children.filter _).map Cuboid.copy).foldlM _ c) = _
        rw [hcopy]
        rw [hpred]
        simp [htm]
  refine ⟨c₂, hsl_run.trans hfold, ?_, ?_⟩
  · constructor
    · rw [pairs_eq_loc_eq hpairs]
      exact hWF.1
    · intro cb₂ hcb₂
      have hpmem : (cb₂.type, cb₂.location) ∈
          c.children.map (fun cb => (cb.type, cb.location)) := by
        rw [← hpairs]
        exact List.mem_map_of_mem _ hcb₂
      rcases List.mem_map.mp hpmem with ⟨cb, hcb, hpair⟩
      have ht : cb.type = cb₂.type := congrArg Prod.fst hpair
      have hl : cb.location = cb₂.location := congrArg Prod.snd hpair
      rw [← ht, ← hl]
      exact hWF.2 cb hcb
  · intro k hk
    rw [hview k]
    show _ = (if affectedB s k then (c.view (k.image (sigInv s))).map (relabel (sigInv s))
      else c.view k)
    by_cases haff : affectedB s k = true
    · rw [if_pos haff]
      set k₀ := k.image (sigInv s) with hk₀
      have hk₀c : k₀ ∈ canonLocs := (img_canon s hs k hk).2
      have haff₀ : affectedB s k₀ = true := by
        rw [hk₀, affected_image_sigInv s hs, haff]
      rcases findPiece_exists hnd (WF_loc_mem hWF hk₀c) with ⟨cb₀, hcb₀, hcb₀l, hcb₀m⟩
      have hcb₀tm : cb₀ ∈ tm := by
        rw [htm]
        exact List.mem_filter.mpr ⟨hcb₀m, by rw [hcb₀l]; exact haff₀⟩
      have hdest₀ : (newPieceT s cb₀).location = k := by
        rw [newPieceT_loc s hs, hcb₀l, hk₀, image_sig_sigInv s hs]
      have hfind : tm.find? (fun cb => decide ((newPieceT s cb).location = k)) = some cb₀ := by
        cases hf : tm.find? (fun cb => decide ((newPieceT s cb).location = k)) with
        | none =>
          exfalso
          have := List.find?_eq_none.mp hf cb₀ hcb₀tm
          simp only [decide_eq_true_eq] at this
          exact this hdest₀
        | some cb₁ =>
          have h1 := List.find?_some hf
          have h1m := List.mem_of_find?_eq_some hf
          simp only [decide_eq_true_eq] at h1
          have hloc1 : cb₁.location = cb₀.location := by
            have ha : cb₁.location.image (sig s) = cb₀.location.image (sig s) := by
              rw [← newPieceT_loc s hs, ← newPieceT_loc s hs, h1, hdest₀]
            have := congrArg (Finset.image (sigInv s)) ha
            rwa [image_sigInv_sig s hs, image_sigInv_sig s hs] at this
          have : cb₁ = cb₀ :=
            loc_unique hnd cb₁ (htm_mem cb₁ h1m).1 cb₀ hcb₀m hloc1
          rw [this]
      rw [hfind]
      have hv₀ : c.view k₀ = some cb₀.facings := by
        unfold Cube.view
        rw [hcb₀]
        rfl
      rw [hv₀]
      rfl
    · have haff2 : affectedB s k = false := by
        cases h2 : affectedB s k
        · rfl
        · exact absurd h2 haff
      rw [if_neg (by simp [haff2])]
      have hfnone : tm.find? (fun cb => decide ((newPieceT s cb).location = k)) = none := by
        apply List.find?_eq_none.mpr
        intro cb hcb
        simp only [decide_eq_true_eq]
        intro he
        have haffd : affectedB s (newPieceT s cb).location = true := by
          rw [newPieceT_loc s hs, affected_image_sig s hs]
          exact (htm_mem cb hcb).2
        rw [he] at haffd
        rw [haffd] at haff2
        cases haff2
      rw [hfnone]

/- ---------- well-formedness through arbitrary moves ---------- -/

theorem perform_step_sl (s : Step) (hs : s ∈ slSteps) (c : Cube) (hWF : c.WF) :
    ∃ c₂, c.perform_step s = .ok c₂ ∧ c₂.WF ∧
      ∀ k ∈ canonLocs, c₂.view k = moveView s c.view k := by
  have hf : s.face ∈ slFaceList := (slSteps_mem_iff s).mp hs
  rcases single_layer_ok s hs c hWF with ⟨c₂, h1, h2, h3⟩
  refine ⟨c₂, ?_, h2, h3⟩
  unfold Cube.perform_step
  rw [if_pos hf]
  exact h1

theorem wide_isSome : ∀ sf : StepFace, sf ∉ slFaceList → (wideMovement sf).isSome := by decide

theorem wide_faces_sl : ∀ sf : StepFace,
    ((wideMovement sf).getD []).all (fun s0 => decide (s0.face ∈ slFaceList)) = true := by decide

theorem fold_sl_WF (s : Step) : ∀ (ms : List Step) (c : Cube), c.WF →
    (∀ s0 ∈ ms, s0.face ∈ slFaceList) →
    ∃ c₂, (ms.foldlM (fun cube s0 =>
        let s1 := if s.is_inverse then s0.inverse else if s.is_180 then s0.mul2 else s0
        cube._single_layer s1) c) = .ok c₂ ∧ c₂.WF := by
  intro ms
  induction ms with
  | nil => intro c hWF _; exact ⟨c, rfl, hWF⟩
  | cons s0 t ih =>
    intro c hWF hfaces
    set s1 := if s.is_inverse then s0.inverse else if s.is_180 then s0.mul2 else s0 with hs1
    have hface1 : s1.face = s0.face := by
      rw [hs1]
      split_ifs <;> rfl
    have hs1mem : s1 ∈ slSteps := by
      rw [slSteps_mem_iff, hface1]
      exact hfaces s0 (by simp)
    rcases single_layer_ok s1 hs1mem c hWF with ⟨c₁, h1, h2, _⟩
    rcases ih c₁ h2 (fun x hx => hfaces x (by simp [hx])) with ⟨c₂, hf2, hw2⟩
    refine ⟨c₂, ?_, hw2⟩
    rw [List.foldlM_cons]
    show (c._single_layer s1) >>= _ = .ok c₂
    rw [h1]
    simp only [except_ok_bind]
    exact hf2

theorem perform_step_WF (s : Step) (c : Cube) (hWF : c.WF) :
    ∃ c₂, c.perform_step s = .ok c₂ ∧ c₂.WF := by
  by_cases hf : s.face ∈ slFaceList
  · rcases perform_step_sl s ((slSteps_mem_iff s).mpr hf) c hWF with ⟨c₂, h1, h2, _⟩
    exact ⟨c₂, h1, h2⟩
  · have hiss := wide_isSome s.face hf
    cases hw : wideMovement s.face with
    | none => rw [hw] at hiss; cases hiss
    | some ms =>
      have hfaces : ∀ s0 ∈ ms, s0.face ∈ slFaceList := by
        have := wide_faces_sl s.face
        rw [hw] at this
        intro s0 hs0
        have h2 := List.all_eq_true.mp this s0 hs0
        exact of_decide_eq_true h2
      rcases fold_sl_WF s ms c hWF hfaces with ⟨c₂, hfold, hw2⟩
      refine ⟨c₂, ?_, hw2⟩
      unfold Cube.perform_step
      rw [if_neg hf]
      unfold Cube._other_rotations
      rw [hw]
      exact hfold

theorem perform_algo_WF : ∀ (steps : List Step) (c : Cube), c.WF →
    ∃ c₂, c.perform_algo steps = .ok c₂ ∧ c₂.WF := by
  intro steps
  induction steps with
  | nil => intro c hWF; exact ⟨c, rfl, hWF⟩
  | cons s t ih =>
    intro c hWF
    rcases perform_step_WF s c hWF with ⟨c₁, h1, h2⟩
    rcases ih c₁ h2 with ⟨c₂, hf2, hw2⟩
    refine ⟨c₂, ?_, hw2⟩
    unfold Cube.perform_algo
    rw [List.foldlM_cons, h1]
    simp only [except_ok_bind]
    exact hf2

theorem default_WF : Cube.default.WF := by decide

theorem reachable_WF (c : Cube) (h : Reachable c) : c.WF := by
  rcases h with ⟨steps, hsteps⟩
  rcases perform_algo_WF steps Cube.default default_WF with ⟨c₂, h1, h2⟩
  rw [hsteps] at h1
  cases h1
  exact h2

/- ---------- composition laws at the view level ---------- -/

theorem affectedB_face {s₁ s₂ : Step} (hf : s₁.face = s₂.face) (k : Finset Face) :
    affectedB s₁ k = affectedB s₂ k := by
  unfold affectedB
  rw [hf]

theorem shifted_shifted2 (s₁ s₂ : Step) (τ₁ τ₂ : Face → Face)
    (hsame : ∀ k : Finset Face, affectedB s₁ k = affectedB s₂ k)
    (haff : ∀ k : Finset Face, affectedB s₂ (k.image τ₂) = affectedB s₂ k)
    (v : Finset Face → Option Facings) (k : Finset Face) :
    shifted s₂ τ₂ (shifted s₁ τ₁ v) k = shifted s₂ (fun g => τ₁ (τ₂ g)) v k := by
  unfold shifted
  by_cases h : affectedB s₂ k = true
  · rw [if_pos h, if_pos h]
    rw [if_pos (by rw [hsame, haff]; exact h)]
    rw [Finset.image_image, Option.map_map]
    rfl
  · rw [if_neg h, if_neg h]
    rw [if_neg (by rw [hsame]; exact h)]

theorem shifted_congr_tau (s : Step) (τ τ2 : Face → Face) (hτ : ∀ g, τ g = τ2 g)
    (v : Finset Face → Option Facings) (k : Finset Face) :
    shifted s τ v k = shifted s τ2 v k := by
  unfold shifted
  have h1 : k.image τ = k.image τ2 := Finset.image_congr (fun x _ => hτ x)
  have h2 : relabel τ = relabel τ2 := by
    funext fc g
    unfold relabel
    rw [hτ]
  rw [h1, h2]

theorem shifted_congr_step (s s2 : Step) (hf : s.face = s2.face) (τ : Face → Face)
    (v : Finset Face → Option Facings) (k : Finset Face) :
    shifted s τ v k = shifted s2 τ v k := by
  unfold shifted
  rw [affectedB_face hf]

theorem shifted_of_id (s : Step) (τ : Face → Face) (hτ : ∀ g, τ g = g)
    (v : Finset Face → Option Facings) (k : Finset Face) :
    shifted s τ v k = v k := by
  unfold shifted
  by_cases h : affectedB s k = true
  · rw [if_pos h, image_of_pointwise_id hτ]
    cases hv : v k with
    | none => rfl
    | some fc =>
      simp only [Option.map_some']
      congr 1
      funext g
      unfold relabel
      rw [hτ]
  · rw [if_neg h]

/- ---------- sequencing at the cube level ---------- -/

theorem moveView_congrOn (s : Step) (hs : s ∈ slSteps)
    (v₁ v₂ : Finset Face → Option Facings) (h : ∀ k ∈ canonLocs, v₁ k = v₂ k) :
    ∀ k ∈ canonLocs, moveView s v₁ k = moveView s v₂ k := by
  intro k hk
  unfold moveView shifted
  by_cases haf : affectedB s k = true
  · rw [if_pos haf, if_pos haf, h (k.image (sigInv s)) ((img_canon s hs k hk).2)]
  · rw [if_neg haf, if_neg haf, h k hk]

theorem foldl_moveView_congr : ∀ ss : List Step, (∀ s ∈ ss, s ∈ slSteps) →
    ∀ v₁ v₂ : Finset Face → Option Facings, (∀ k ∈ canonLocs, v₁ k = v₂ k) →
    ∀ k ∈ canonLocs, (ss.foldl (fun v s => moveView s v) v₁) k =
      (ss.foldl (fun v s => moveView s v) v₂) k := by
  intro ss
  induction ss with
  | nil => intro _ v₁ v₂ h k hk; exact h k hk
  | cons s t ih =>
    intro hss v₁ v₂ h k hk
    simp only [List.foldl_cons]
    exact ih (fun x hx => hss x (by simp [hx])) _ _
      (moveView_congrOn s (hss s (by simp)) v₁ v₂ h) k hk

theorem perform_algo_chain : ∀ ss : List Step, (∀ s ∈ ss, s ∈ slSteps) →
    ∀ c : Cube, c.WF →
    ∃ c₂, c.perform_algo ss = .ok c₂ ∧ c₂.WF ∧
      ∀ k ∈ canonLocs, c₂.view k = (ss.foldl (fun v s => moveView s v) c.view) k := by
  intro ss
  induction ss with
  | nil => intro _ c hWF; exact ⟨c, rfl, hWF, fun k _ => rfl⟩
  | cons s t ih =>
    intro hss c hWF
    rcases perform_step_sl s (hss s (by simp)) c hWF with ⟨c₁, h1, h2, h3⟩
    rcases ih (fun x hx => hss x (by simp [hx])) c₁ h2 with ⟨c₂, hf2, hw2, hv2⟩
    refine ⟨c₂, ?_, hw2, ?_⟩
    · unfold Cube.perform_algo at hf2 ⊢
      rw [List.foldlM_cons, h1]
      simp only [except_ok_bind]
      exact hf2
    · intro k hk
      rw [hv2 k hk]
      simp only [List.foldl_cons]
      exact foldl_moveView_congr t (fun x hx => hss x (by simp [hx])) c₁.view
        (moveView s c.view) h3 k hk

/- ---------- cube equality bridge ---------- -/

theorem dictEq_of_views {c₁ c₂ : Cube} (h1 : c₁.WF) (h2 : c₂.WF)
    (hv : ∀ k ∈ canonLocs, c₁.view k = c₂.view k) : c₁.dictEq c₂ := by
  intro k hk
  have hkc := iterKeys_sub k hk
  rcases findPiece_exists (WF_nodup h1) (WF_loc_mem h1 hkc) with ⟨cb₁, hf₁, _, _⟩
  rcases findPiece_exists (WF_nodup h2) (WF_loc_mem h2 hkc) with ⟨cb₂, hf₂, _, _⟩
  have hvk := hv k hkc
  unfold Cube.view at hvk
  rw [hf₁, hf₂] at hvk
  simp only [Option.map_some'] at hvk
  have hfeq : cb₁.facings = cb₂.facings := Option.some.inj hvk
  unfold Cube.getitem
  rw [hf₁, hf₂]
  show Except.ok cb₁.facings = Except.ok cb₂.facings
  rw [hfeq]

/- ---------- group laws of the quarter turn ---------- -/

theorem law_four (s : Step) (hs : s ∈ slSteps)
    (hid : ∀ g, sigInv s (sigInv s (sigInv s (sigInv s g))) = g)
    (v : Finset Face → Option Facings) (k : Finset Face) :
    moveView s (moveView s (moveView s (moveView s v))) k = v k := by
  have haff := affected_image_sigInv s hs
  have haff2 : ∀ k2 : Finset Face,
      affectedB s (k2.image (fun g => sigInv s (sigInv s g))) = affectedB s k2 := by
    intro k2
    have h1 : k2.image (fun g => sigInv s (sigInv s g)) =
        (k2.image (sigInv s)).image (sigInv s) := (Finset.image_image).symm
    rw [h1, haff, haff]
  have e1 : ∀ w : Finset Face → Option Facings,
      moveView s (moveView s w) = shifted s (fun g => sigInv s (sigInv s g)) w :=
    fun w => funext (fun k2 =>
      shifted_shifted2 s s (sigInv s) (sigInv s) (fun _ => rfl) haff w k2)
  rw [show moveView s (moveView s (moveView s (moveView s v))) =
      shifted s (fun g => sigInv s (sigInv s g))
        (shifted s (fun g => sigInv s (sigInv s g)) v) from by rw [e1, e1]]
  rw [shifted_shifted2 s s (fun g => sigInv s (sigInv s g)) (fun g => sigInv s (sigInv s g))
    (fun _ => rfl) haff2 v k]
  exact shifted_of_id s _ (fun g => hid g) v k

theorem law_two (s₁ s₂ : Step) (hf : s₁.face = s₂.face) (hs₂ : s₂ ∈ slSteps)
    (hid : ∀ g, sigInv s₁ (sigInv s₂ g) = g)
    (v : Finset Face → Option Facings) (k : Finset Face) :
    moveView s₂ (moveView s₁ v) k = v k := by
  unfold moveView
  rw [shifted_shifted2 s₁ s₂ (sigInv s₁) (sigInv s₂) (fun k2 => affectedB_face hf k2)
    (affected_image_sigInv s₂ hs₂) v k]
  exact shifted_of_id s₂ _ hid v k

theorem law_double (s sh : Step) (hf : s.face = sh.face) (hs : s ∈ slSteps)
    (hcm : ∀ g, sigInv s (sigInv s g) = sigInv sh g)
    (v : Finset Face → Option Facings) (k : Finset Face) :
    moveView s (moveView s v) k = moveView sh v k := by
  unfold moveView
  rw [shifted_shifted2 s s (sigInv s) (sigInv s) (fun _ => rfl)
    (affected_image_sigInv s hs) v k]
  rw [shifted_congr_tau s _ (sigInv sh) hcm v k]
  exact shifted_congr_step s sh hf (sigInv sh) v k

/- ---------- colour conservation ---------- -/

theorem snd_suppPairs (h : Face → Option Colour) :
    ∀ l : List Face,
      (l.filterMap (fun g => (h g).map (fun col => (g, col)))).map Prod.snd =
        l.filterMap h := by
  intro l
  induction l with
  | nil => rfl
  | cons a t ih =>
    cases hfa : h a with
    | none => simp [List.filterMap_cons, hfa, ih]
    | some col => simp [List.filterMap_cons, hfa, ih]

theorem facColours_relabel (s : Step) (hs : s ∈ slSteps) (fc : Facings) :
    facColours (relabel (sigInv s) fc) = facColours fc := by
  unfold facColours suppPairs
  apply Multiset.coe_eq_coe.mpr
  rw [snd_suppPairs, snd_suppPairs]
  show (Face.all.filterMap (relabel (sigInv s) fc)).Perm (Face.all.filterMap fc)
  have h1 : Face.all.filterMap (relabel (sigInv s) fc) =
      (Face.all.map (sigInv s)).filterMap fc := by
    rw [List.filterMap_map]
    rfl
  rw [h1]
  exact (faces_perm s hs).filterMap fc

theorem locColours_of_piece {c : Cube} (hWF : c.WF) {cb : Cuboid} (hcb : cb ∈ c.children) :
    locColours c cb.location = pieceColours cb := by
  unfold locColours Cube.view
  rw [findPiece_mem_nodup (WF_nodup hWF) hcb]
  rfl

theorem cubeColours_view {c : Cube} (hWF : c.WF) :
    cubeColours c = (canonLocs.map (locColours c)).sum := by
  unfold cubeColours
  apply List.Perm.sum_eq
  have h1 : (canonLocs.map (locColours c)).Perm
      ((c.children.map Cuboid.location).map (locColours c)) :=
    (hWF.1.symm).map (locColours c)
  have h2 : (c.children.map Cuboid.location).map (locColours c) =
      c.children.map pieceColours := by
    rw [List.map_map]
    exact List.map_congr_left (fun cb hcb => locColours_of_piece hWF hcb)
  rw [h2] at h1
  exact h1.symm

theorem view_colours_step (s : Step) (hs : s ∈ slSteps) {c c₂ : Cube}
    (hWF : c.WF) (hWF₂ : c₂.WF)
    (hv : ∀ k ∈ canonLocs, c₂.view k = moveView s c.view k) :
    cubeColours c₂ = cubeColours c := by
  rw [cubeColours_view hWF₂, cubeColours_view hWF]
  have hA : ∀ k ∈ canonLocs.filter (fun k => affectedB s k),
      locColours c₂ k = locColours c (k.image (sigInv s)) := by
    intro k hk
    have hk1 := List.mem_filter.mp hk
    have hvk := hv k hk1.1
    unfold moveView shifted at hvk
    rw [if_pos hk1.2] at hvk
    unfold locColours
    rw [hvk]
    cases hsrc : c.view (k.image (sigInv s)) with
    | none => rfl
    | some fc =>
      simp only [Option.map_some']
      exact facColours_relabel s hs fc
  have hN : ∀ k ∈ canonLocs.filter (fun k => !(affectedB s k)),
      locColours c₂ k = locColours c k := by
    intro k hk
    have hk1 := List.mem_filter.mp hk
    have hfalse : ¬ affectedB s k = true := by
      intro h
      rw [h] at hk1
      exact absurd hk1.2 (by simp)
    have hvk := hv k hk1.1
    unfold moveView shifted at hvk
    rw [if_neg hfalse] at hvk
    unfold locColours
    rw [hvk]
  have hsplitPerm := List.filter_append_perm (fun k => affectedB s k) canonLocs
  have hsum : ∀ c3 : Cube,
      (canonLocs.map (locColours c3)).sum =
        ((canonLocs.filter (fun k => affectedB s k)).map (locColours c3)).sum +
        ((canonLocs.filter (fun k => !(affectedB s k))).map (locColours c3)).sum := by
    intro c3
    have hp := (hsplitPerm.symm).map (locColours c3)
    rw [List.map_append] at hp
    rw [hp.sum_eq, List.sum_append]
  rw [hsum c₂, hsum c]
  have hNeq : ((canonLocs.filter (fun k => !(affectedB s k))).map (locColours c₂)) =
      ((canonLocs.filter (fun k => !(affectedB s k))).map (locColours c)) :=
    List.map_congr_left hN
  have hAeq : ((canonLocs.filter (fun k => affectedB s k)).map (locColours c₂)).sum =
      ((canonLocs.filter (fun k => affectedB s k)).map (locColours c)).sum := by
    have h1 : ((canonLocs.filter (fun k => affectedB s k)).map (locColours c₂)) =
        ((canonLocs.filter (fun k => affectedB s k)).map
          (fun k => locColours c (k.image (sigInv s)))) :=
      List.map_congr_left hA
    rw [h1]
    have h2 : ((canonLocs.filter (fun k => affectedB s k)).map
        (fun k => locColours c (k.image (sigInv s)))) =
        (((canonLocs.filter (fun k => affectedB s k)).map (Finset.image (sigInv s))).map
          (locColours c)) := by
      rw [List.map_map]
      rfl
    rw [h2]
    exact ((aff_perm s hs).map (locColours c)).sum_eq
  rw [hNeq, hAeq]

theorem fold_sl_colours (s : Step) : ∀ (ms : List Step) (c : Cube), c.WF →
    (∀ s0 ∈ ms, s0.face ∈ slFaceList) →
    ∃ c₂, (ms.foldlM (fun cube s0 =>
        let s1 := if s.is_inverse then s0.inverse else if s.is_180 then s0.mul2 else s0
        cube._single_layer s1) c) = .ok c₂ ∧ c₂.WF ∧ cubeColours c₂ = cubeColours c := by
  intro ms
  induction ms with
  | nil => intro c hWF _; exact ⟨c, rfl, hWF, rfl⟩
  | cons s0 t ih =>
    intro c hWF hfaces
    set s1 := if s.is_inverse then s0.inverse else if s.is_180 then s0.mul2 else s0 with hs1
    have hface1 : s1.face = s0.face := by
      rw [hs1]
      split_ifs <;> rfl
    have hs1mem : s1 ∈ slSteps := by
      rw [slSteps_mem_iff, hface1]
      exact hfaces s0 (by simp)
    rcases single_layer_ok s1 hs1mem c hWF with ⟨c₁, h1, h2, h3⟩
    have hcol1 : cubeColours c₁ = cubeColours c := view_colours_step s1 hs1mem hWF h2 h3
    rcases ih c₁ h2 (fun x hx => hfaces x (by simp [hx])) with ⟨c₂, hf2, hw2, hc2⟩
    refine ⟨c₂, ?_, hw2, hc2.trans hcol1⟩
    rw [List.foldlM_cons]
    show (c._single_layer s1) >>= _ = .ok c₂
    rw [h1]
    simp only [except_ok_bind]
    exact hf2

theorem perform_step_colours (s : Step) (c : Cube) (hWF : c.WF) :
    ∃ c₂, c.perform_step s = .ok c₂ ∧ c₂.WF ∧ cubeColours c₂ = cubeColours c := by
  by_cases hf : s.face ∈ slFaceList
  · have hs : s ∈ slSteps := (slSteps_mem_iff s).mpr hf
    rcases perform_step_sl s hs c hWF with ⟨c₂, h1, h2, h3⟩
    exact ⟨c₂, h1, h2, view_colours_step s hs hWF h2 h3⟩
  · have hiss := wide_isSome s.face hf
    cases hw : wideMovement s.face with
    | none => rw [hw] at hiss; cases hiss
    | some ms =>
      have hfaces : ∀ s0 ∈ ms, s0.face ∈ slFaceList := by
        have := wide_faces_sl s.face
        rw [hw] at this
        intro s0 hs0
        exact of_decide_eq_true (List.all_eq_true.mp this s0 hs0)
      rcases fold_sl_colours s ms c hWF hfaces with ⟨c₂, hfold, hw2, hc2⟩
      refine ⟨c₂, ?_, hw2, hc2⟩
      unfold Cube.perform_step
      rw [if_neg hf]
      unfold Cube._other_rotations
      rw [hw]
      exact hfold

theorem perform_algo_colours : ∀ (steps : List Step) (c : Cube), c.WF →
    ∃ c₂, c.perform_algo steps = .ok c₂ ∧ c₂.WF ∧ cubeColours c₂ = cubeColours c := by
  intro steps
  induction steps with
  | nil => intro c hWF; exact ⟨c, rfl, hWF, rfl⟩
  | cons s t ih =>
    intro c hWF
    rcases perform_step_colours s c hWF with ⟨c₁, h1, h2, h3⟩
    rcases ih c₁ h2 with ⟨c₂, hf2, hw2, hc2⟩
    refine ⟨c₂, ?_, hw2, hc2.trans h3⟩
    unfold Cube.perform_algo
    rw [List.foldlM_cons, h1]
    simp only [except_ok_bind]
    exact hf2

/- ---------- construction from a supplied collection ---------- -/

theorem except_error_bind {α β : Type} (e : PyError) (f : α → Except PyError β) :
    (Except.error e : Except PyError α) >>= f = .error e := rfl

theorem initStep_cuboid (cb : Cuboid) (acc : Option PieceType × List Cuboid)
    (hhash : squaresHashable cb.facings = true)
    (hcard : cb.location.card = 1 ∨ cb.location.card = 2 ∨ cb.location.card = 3) :
    initStep acc (.cuboid cb) =
      .ok (kindOfCard cb.location.card, acc.2 ++ [retypeItem (.cuboid cb)]) := by
  have hsupp : facSupp cb.facings = cb.location := rfl
  rcases hcard with h | h | h <;>
    simp [initStep, hhash, h, mkByType, Centre.init, Edge.init, Corner.init,
      retypeItem, kindOfCard, hsupp, except_ok_bind]

theorem initStep_unhashable (cb : Cuboid) (acc : Option PieceType × List Cuboid)
    (hhash : squaresHashable cb.facings = false) :
    initStep acc (.cuboid cb) = .error (.keyError "unknown") := by
  simp [initStep, hhash]

theorem init_fold_ok : ∀ (items : List InitItem) (acc : Option PieceType × List Cuboid),
    (∀ i ∈ items, ∃ cb, i = .cuboid cb ∧ squaresHashable cb.facings = true ∧
      (cb.location.card = 1 ∨ cb.location.card = 2 ∨ cb.location.card = 3)) →
    ∃ pt2, items.foldlM initStep acc = .ok (pt2, acc.2 ++ items.map retypeItem) := by
  intro items
  induction items with
  | nil =>
    intro acc _
    refine ⟨acc.1, ?_⟩
    simp only [List.map_nil, List.append_nil]
    rfl
  | cons i t ih =>
    intro acc hall
    rcases hall i (by simp) with ⟨cb, rfl, hhash, hcard⟩
    rcases ih (kindOfCard cb.location.card, acc.2 ++ [retypeItem (.cuboid cb)])
      (fun x hx => hall x (by simp [hx])) with ⟨pt2, hfold⟩
    refine ⟨pt2, ?_⟩
    rw [List.foldlM_cons, initStep_cuboid cb acc hhash hcard]
    simp only [except_ok_bind]
    rw [hfold]
    simp

theorem init_ok (items : List InitItem) (hne : items ≠ [])
    (hall : ∀ i ∈ items, ∃ cb, i = .cuboid cb ∧ squaresHashable cb.facings = true ∧
      (cb.location.card = 1 ∨ cb.location.card = 2 ∨ cb.location.card = 3)) :
    Cube.init (some items) = .ok ⟨items.map retypeItem⟩ := by
  rcases init_fold_ok items (none, []) hall with ⟨pt2, hfold⟩
  cases items with
  | nil => exact absurd rfl hne
  | cons i t =>
    show ((i :: t).foldlM initStep (none, [])) >>=
      (fun r => Except.ok (Cube.mk r.2)) = _
    rw [hfold]
    simp only [except_ok_bind, List.nil_append]

theorem init_junk_error : ∀ (items : List InitItem) (acc : Option PieceType × List Cuboid),
    .other ∈ items → ∃ e, items.foldlM initStep acc = .error e := by
  intro items
  induction items with
  | nil => intro acc h; cases h
  | cons i t ih =>
    intro acc hmem
    cases i with
    | other =>
      refine ⟨.valueError "Should use Cuboid", ?_⟩
      rw [List.foldlM_cons]
      show (initStep acc .other) >>= _ = _
      rfl
    | cuboid cb =>
      have hmem2 : InitItem.other ∈ t := by
        rcases List.mem_cons.mp hmem with h | h
        · cases h
        · exact h
      cases hstep : initStep acc (.cuboid cb) with
      | error e =>
        refine ⟨e, ?_⟩
        rw [List.foldlM_cons, hstep]
        rfl
      | ok acc2 =>
        rcases ih acc2 hmem2 with ⟨e, hfold⟩
        refine ⟨e, ?_⟩
        rw [List.foldlM_cons, hstep]
        simp only [except_ok_bind]
        exact hfold

theorem init_error_of_junk (items : List InitItem) (h : .other ∈ items) :
    ∃ e, Cube.init (some items) = .error e := by
  cases items with
  | nil => cases h
  | cons i t =>
    rcases init_junk_error (i :: t) (none, []) h with ⟨e, hfold⟩
    refine ⟨e, ?_⟩
    show ((i :: t).foldlM initStep (none, [])) >>=
      (fun r => Except.ok (Cube.mk r.2)) = _
    rw [hfold]
    rfl

theorem init_unhash_error : ∀ (items : List InitItem) (acc : Option PieceType × List Cuboid)
    (cb : Cuboid), .cuboid cb ∈ items → squaresHashable cb.facings = false →
    ∃ e, items.foldlM initStep acc = .error e := by
  intro items
  induction items with
  | nil => intro acc cb h _; cases h
  | cons i t ih =>
    intro acc cb hmem hhash
    rcases List.mem_cons.mp hmem with h1 | h1
    · refine ⟨.keyError "unknown", ?_⟩
      rw [List.foldlM_cons, ← h1, initStep_unhashable cb acc hhash]
      rfl
    · cases hstep : initStep acc i with
      | error e =>
        refine ⟨e, ?_⟩
        rw [List.foldlM_cons, hstep]
        rfl
      | ok acc2 =>
        rcases ih acc2 cb h1 hhash with ⟨e, hfold⟩
        refine ⟨e, ?_⟩
        rw [List.foldlM_cons, hstep]
        simp only [except_ok_bind]
        exact hfold

theorem init_error_of_unhashable (items : List InitItem) (cb : Cuboid)
    (h : .cuboid cb ∈ items) (hhash : squaresHashable cb.facings = false) :
    ∃ e, Cube.init (some items) = .error e := by
  cases items with
  | nil => cases h
  | cons i t =>
    rcases init_unhash_error (i :: t) (none, []) cb h hhash with ⟨e, hfold⟩
    refine ⟨e, ?_⟩
    show ((i :: t).foldlM initStep (none, [])) >>=
      (fun r => Except.ok (Cube.mk r.2)) = _
    rw [hfold]
    rfl

/- ---------- copying ---------- -/

theorem iterKeys_ne_nil : iterKeys ≠ [] := by decide

theorem iterList_ok {c : Cube} (hWF : c.WF) :
    c.iterList = .ok (iterKeys.map (fun k => (k, pieceAtD c k))) := by
  apply mapME_ok_of_forall
  intro k hk
  have hkc := iterKeys_sub k hk
  rcases findPiece_exists (WF_nodup hWF) (WF_loc_mem hWF hkc) with ⟨cb, hf, _, _⟩
  have hg : c.getitem k = .ok cb := by
    unfold Cube.getitem
    rw [hf]
  rw [hg]
  simp only [except_ok_bind]
  unfold pieceAtD
  rw [hf]

theorem copy_ok {c : Cube} (hWF : c.WF)
    (hh : ∀ cb ∈ c.children, squaresHashable cb.facings = true) :
    ∃ c₂, c.copy = .ok c₂ ∧ c₂.WF ∧ c₂.dictEq c := by
  have hitems : ∀ i ∈ iterKeys.map (fun k => InitItem.cuboid (pieceAtD c k)),
      ∃ cb, i = .cuboid cb ∧ squaresHashable cb.facings = true ∧
        (cb.location.card = 1 ∨ cb.location.card = 2 ∨ cb.location.card = 3) := by
    intro i hi
    rcases List.mem_map.mp hi with ⟨k, hk, rfl⟩
    have hkc := iterKeys_sub k hk
    rcases findPiece_exists (WF_nodup hWF) (WF_loc_mem hWF hkc) with ⟨cb, hf, hfl, hcm⟩
    refine ⟨pieceAtD c k, rfl, ?_, ?_⟩
    · have hp : pieceAtD c k = cb := by
        unfold pieceAtD
        rw [hf]
      rw [hp]
      exact hh cb hcm
    · have hl : (pieceAtD c k).location = k := by
        unfold pieceAtD
        rw [hf]
        exact hfl
      rw [hl]
      exact canon_card k hkc
  have hne : iterKeys.map (fun k => InitItem.cuboid (pieceAtD c k)) ≠ [] := by
    intro h
    exact iterKeys_ne_nil (List.map_eq_nil_iff.mp h)
  have hinit := init_ok _ hne hitems
  have hcopyrun : c.copy = Cube.init (some (iterKeys.map (fun k => .cuboid (pieceAtD c k)))) := by
    unfold Cube.copy
    rw [iterList_ok hWF]
    simp only [except_ok_bind]
    rw [List.map_map]
    rfl
  set c₂ : Cube := ⟨(iterKeys.map (fun k => InitItem.cuboid (pieceAtD c k))).map retypeItem⟩
    with hc₂
  have hloc : ∀ k ∈ iterKeys, (pieceAtD c k).location = k := by
    intro k hk
    have hkc := iterKeys_sub k hk
    rcases findPiece_exists (WF_nodup hWF) (WF_loc_mem hWF hkc) with ⟨cb, hf, hfl, _⟩
    unfold pieceAtD
    rw [hf]
    exact hfl
  have hch : c₂.children = iterKeys.map
      (fun k => (⟨kindOfCard (pieceAtD c k).location.card, (pieceAtD c k).facings⟩ : Cuboid)) := by
    rw [hc₂]
    show (iterKeys.map (fun k => InitItem.cuboid (pieceAtD c k))).map retypeItem = _
    rw [List.map_map]
    rfl
  have hlocs : c₂.children.map Cuboid.location = iterKeys := by
    rw [hch, List.map_map]
    have : ∀ k ∈ iterKeys,
        (Cuboid.location ∘ fun k =>
          (⟨kindOfCard (pieceAtD c k).location.card, (pieceAtD c k).facings⟩ : Cuboid)) k = k := by
      intro k hk
      show facSupp (pieceAtD c k).facings = k
      exact hloc k hk
    calc iterKeys.map _ = iterKeys.map id := List.map_congr_left this
    _ = iterKeys := List.map_id iterKeys
  have hWF₂ : c₂.WF := by
    constructor
    · rw [hlocs]
      exact iterKeys_perm
    · intro cb hcb
      rw [hch] at hcb
      rcases List.mem_map.mp hcb with ⟨k, hk, rfl⟩
      rfl
  refine ⟨c₂, ?_, hWF₂, ?_⟩
  · rw [hcopyrun, hinit]
  · apply dictEq_of_views hWF₂ hWF
    intro k hk
    have hki : k ∈ iterKeys := (iterKeys_perm.mem_iff).mpr hk
    have hmem : (⟨kindOfCard (pieceAtD c k).location.card, (pieceAtD c k).facings⟩ : Cuboid)
        ∈ c₂.children := by
      rw [hch]
      exact List.mem_map_of_mem _ hki
    have hl2 : (⟨kindOfCard (pieceAtD c k).location.card,
        (pieceAtD c k).facings⟩ : Cuboid).location = k := hloc k hki
    have hfp := findPiece_mem_nodup (WF_nodup hWF₂) hmem
    rw [hl2] at hfp
    unfold Cube.view
    rw [hfp]
    rcases findPiece_exists (WF_nodup hWF) (WF_loc_mem hWF hk) with ⟨cb, hf, _, _⟩
    rw [hf]
    unfold pieceAtD
    rw [hf]
    rfl

/- ================================================================== -/
/- Claims                                                              -/
/- ================================================================== -/

/-- C1: every Puzzle state reachable from the default solved construction by
    a finite move sequence resolves each of the 26 canonical location keys
    via get to exactly one piece (no two pieces share a location key), and
    the multiset of (kind, location) pairs over the 26 pieces equals that of
    the initial state. -/
theorem C1_reachable_invariant (c : Cube) (h : Reachable c) :
    (∀ k ∈ canonLocs, ∃ cb, c.getitem k = .ok cb ∧
      c.children.filter (fun x => decide (x.location = k)) = [cb]) ∧
    ((c.children.map (fun cb => (cb.type, cb.location)) :
        Multiset (Option PieceType × Finset Face)) =
      (Cube.default.children.map (fun cb => (cb.type, cb.location)) :
        Multiset (Option PieceType × Finset Face))) := by
  have hWF := reachable_WF c h
  constructor
  · intro k hk
    rcases findPiece_exists (WF_nodup hWF) (WF_loc_mem hWF hk) with ⟨cb, hf, hfl, hfm⟩
    refine ⟨cb, ?_, ?_⟩
    · unfold Cube.getitem
      rw [hf]
    · have hsing := filter_loc_singleton (WF_nodup hWF) cb hfm
      rw [hfl] at hsing
      exact hsing
  · apply Multiset.coe_eq_coe.mpr
    have hpair : ∀ d : Cube, d.WF →
        d.children.map (fun cb => (cb.type, cb.location)) =
          (d.children.map Cuboid.location).map (fun k => (kindOfCard k.card, k)) := by
      intro d hd
      rw [List.map_map]
      apply List.map_congr_left
      intro cb hcb
      show (cb.type, cb.location) = (kindOfCard cb.location.card, cb.location)
      rw [hd.2 cb hcb]
    rw [hpair c hWF, hpair Cube.default default_WF]
    exact (hWF.1.map _).trans ((default_WF.1.map _).symm)

/-- C1 witness: the default cube is reachable by the empty move sequence. -/
theorem C1_reachable_invariant_witness :
    Reachable Cube.default ∧
    ((∀ k ∈ canonLocs, ∃ cb, Cube.default.getitem k = .ok cb ∧
      Cube.default.children.filter (fun x => decide (x.location = k)) = [cb]) ∧
    ((Cube.default.children.map (fun cb => (cb.type, cb.location)) :
        Multiset (Option PieceType × Finset Face)) =
      (Cube.default.children.map (fun cb => (cb.type, cb.location)) :
        Multiset (Option PieceType × Finset Face)))) :=
  ⟨⟨[], rfl⟩, C1_reachable_invariant Cube.default ⟨[], rfl⟩⟩

/-- C2: the multiset of the 54 sticker colours collected over all pieces is
    unchanged by any finite move sequence applied to a well-formed Puzzle
    state: every move permutes stickers and never creates or destroys any. -/
theorem C2_colour_conservation (c : Cube) (hWF : c.WF) (steps : List Step) (c₂ : Cube)
    (h : c.perform_algo steps = .ok c₂) : cubeColours c₂ = cubeColours c := by
  rcases perform_algo_colours steps c hWF with ⟨c₃, h1, _, h3⟩
  rw [h] at h1
  cases h1
  exact h3

/-- C2 witness: the empty move sequence on the default cube. -/
theorem C2_colour_conservation_witness :
    Cube.default.WF ∧ Cube.default.perform_algo [] = .ok Cube.default ∧
    cubeColours Cube.default = cubeColours Cube.default :=
  ⟨default_WF, rfl, C2_colour_conservation Cube.default default_WF [] Cube.default rfl⟩

/-- C3: for every outer face X and every well-formed Puzzle state, the
    quarter turn X applied four times (or its inverse four times) restores
    the state, X followed by its inverse (either order) restores the state,
    and X applied twice equals the double-flagged move X2 applied once. -/
theorem C3_quarter_turn_laws (c : Cube) (hWF : c.WF) (X : Face) :
    (∃ c₄, c.perform_algo [quarter X, quarter X, quarter X, quarter X] = .ok c₄ ∧
      c₄.dictEq c) ∧
    (∃ c₄, c.perform_algo [quarterInv X, quarterInv X, quarterInv X, quarterInv X] = .ok c₄ ∧
      c₄.dictEq c) ∧
    (∃ c₂, c.perform_algo [quarter X, quarterInv X] = .ok c₂ ∧ c₂.dictEq c) ∧
    (∃ c₂, c.perform_algo [quarterInv X, quarter X] = .ok c₂ ∧ c₂.dictEq c) ∧
    (∃ ca cb, c.perform_algo [quarter X, quarter X] = .ok ca ∧
      c.perform_step (half X) = .ok cb ∧ ca.dictEq cb) := by
  have hX : X ∈ Face.all := face_all_mem X
  rcases quarter_slmem X hX with ⟨hq, hqi, hh⟩
  refine ⟨?_, ?_, ?_, ?_, ?_⟩
  · have hmem : ∀ s ∈ [quarter X, quarter X, quarter X, quarter X], s ∈ slSteps := by
      intro s hs
      simp only [List.mem_cons, List.not_mem_nil, or_false] at hs
      rcases hs with rfl | rfl | rfl | rfl <;> exact hq
    rcases perform_algo_chain [quarter X, quarter X, quarter X, quarter X] hmem c hWF
      with ⟨c₄, h1, h2, h3⟩
    refine ⟨c₄, h1, dictEq_of_views h2 hWF ?_⟩
    intro k hk
    rw [h3 k hk]
    exact law_four (quarter X) hq (q4_id X hX) c.view k
  · have hmem : ∀ s ∈ [quarterInv X, quarterInv X, quarterInv X, quarterInv X],
        s ∈ slSteps := by
      intro s hs
      simp only [List.mem_cons, List.not_mem_nil, or_false] at hs
      rcases hs with rfl | rfl | rfl | rfl <;> exact hqi
    rcases perform_algo_chain [quarterInv X, quarterInv X, quarterInv X, quarterInv X]
      hmem c hWF with ⟨c₄, h1, h2, h3⟩
    refine ⟨c₄, h1, dictEq_of_views h2 hWF ?_⟩
    intro k hk
    rw [h3 k hk]
    exact law_four (quarterInv X) hqi (qinv4_id X hX) c.view k
  · have hmem : ∀ s ∈ [quarter X, quarterInv X], s ∈ slSteps := by
      intro s hs
      simp only [List.mem_cons, List.not_mem_nil, or_false] at hs
      rcases hs with rfl | rfl
      · exact hq
      · exact hqi
    rcases perform_algo_chain [quarter X, quarterInv X] hmem c hWF with ⟨c₂, h1, h2, h3⟩
    refine ⟨c₂, h1, dictEq_of_views h2 hWF ?_⟩
    intro k hk
    rw [h3 k hk]
    exact law_two (quarter X) (quarterInv X) rfl hqi (fun g => (q_qinv_id X hX g).1) c.view k
  · have hmem : ∀ s ∈ [quarterInv X, quarter X], s ∈ slSteps := by
      intro s hs
      simp only [List.mem_cons, List.not_mem_nil, or_false] at hs
      rcases hs with rfl | rfl
      · exact hqi
      · exact hq
    rcases perform_algo_chain [quarterInv X, quarter X] hmem c hWF with ⟨c₂, h1, h2, h3⟩
    refine ⟨c₂, h1, dictEq_of_views h2 hWF ?_⟩
    intro k hk
    rw [h3 k hk]
    exact law_two (quarterInv X) (quarter X) rfl hq (fun g => (q_qinv_id X hX g).2) c.view k
  · have hmem : ∀ s ∈ [quarter X, quarter X], s ∈ slSteps := by
      intro s hs
      simp only [List.mem_cons, List.not_mem_nil, or_false] at hs
      rcases hs with rfl | rfl <;> exact hq
    rcases perform_algo_chain [quarter X, quarter X] hmem c hWF with ⟨ca, h1, h2, h3⟩
    rcases perform_step_sl (half X) hh c hWF with ⟨cb, hb1, hb2, hb3⟩
    refine ⟨ca, cb, h1, hb1, dictEq_of_views h2 hb2 ?_⟩
    intro k hk
    rw [h3 k hk, hb3 k hk]
    exact law_double (quarter X) (half X) rfl hq (qq_half X hX) c.view k

/-- C3 witness: the laws instantiated on the default cube with face R. -/
theorem C3_quarter_turn_laws_witness :
    Cube.default.WF ∧
    ((∃ c₄, Cube.default.perform_algo
        [quarter .R, quarter .R, quarter .R, quarter .R] = .ok c₄ ∧
      c₄.dictEq Cube.default) ∧
    (∃ c₄, Cube.default.perform_algo
        [quarterInv .R, quarterInv .R, quarterInv .R, quarterInv .R] = .ok c₄ ∧
      c₄.dictEq Cube.default) ∧
    (∃ c₂, Cube.default.perform_algo [quarter .R, quarterInv .R] = .ok c₂ ∧
      c₂.dictEq Cube.default) ∧
    (∃ c₂, Cube.default.perform_algo [quarterInv .R, quarter .R] = .ok c₂ ∧
      c₂.dictEq Cube.default) ∧
    (∃ ca cb, Cube.default.perform_algo [quarter .R, quarter .R] = .ok ca ∧
      Cube.default.perform_step (half .R) = .ok cb ∧ ca.dictEq cb)) :=
  ⟨default_WF, C3_quarter_turn_laws Cube.default default_WF .R⟩

/-- C4 counterexample: a collection holding one single Centre piece is not a
    permutation-consistent 26-piece set, yet Cube construction accepts it
    without any error. -/
theorem C4_counter_single_piece :
    (Cube.init (some [.cuboid (solvedPiece [.L])])).isOk = true ∧
    [InitItem.cuboid (solvedPiece [.L])].length = 1 := by decide

/-- C4 amended: construction from a supplied collection rejects non-Cuboid
    members (reported as an error) and rejects any collection holding a piece
    with an unknown-coloured sticker (the rebuild loop hashes every sticker
    into a set, and an unknown colour has no colour_to_hex entry); any
    nonempty collection of pieces whose sticker colours all hash and whose
    location sizes are 1, 2 or 3 is accepted as-is, with no validation of the
    26-piece cardinality, of missing or duplicate location keys, or of
    opposite-face keys. -/
theorem C4_amended_construction :
    (∀ items : List InitItem, .other ∈ items → ∃ e, Cube.init (some items) = .error e) ∧
    (∀ (items : List InitItem) (cb : Cuboid), .cuboid cb ∈ items →
      squaresHashable cb.facings = false → ∃ e, Cube.init (some items) = .error e) ∧
    (∀ items : List InitItem, items ≠ [] →
      (∀ i ∈ items, ∃ cb, i = .cuboid cb ∧ squaresHashable cb.facings = true ∧
        (cb.location.card = 1 ∨ cb.location.card = 2 ∨ cb.location.card = 3)) →
      Cube.init (some items) = .ok ⟨items.map retypeItem⟩) :=
  ⟨init_error_of_junk, init_error_of_unhashable, init_ok⟩

/-- C4 amended witness: a junk member is rejected; a lone unknown-coloured
    Centre is rejected; a lone solved-coloured Centre is accepted. -/
theorem C4_amended_construction_witness :
    (InitItem.other ∈ [InitItem.other]) ∧
    (∃ e, Cube.init (some [InitItem.other]) = .error e) ∧
    (InitItem.cuboid unknownCentre ∈ [InitItem.cuboid unknownCentre]) ∧
    squaresHashable unknownCentre.facings = false ∧
    (∃ e, Cube.init (some [InitItem.cuboid unknownCentre]) = .error e) ∧
    ([InitItem.cuboid (solvedPiece [.U])] ≠ ([] : List InitItem)) ∧
    Cube.init (some [.cuboid (solvedPiece [.U])]) =
      .ok ⟨[InitItem.cuboid (solvedPiece [.U])].map retypeItem⟩ :=
  ⟨by decide, C4_amended_construction.1 [.other] (by decide),
   List.mem_singleton.mpr rfl, by decide,
   C4_amended_construction.2.1 [.cuboid unknownCentre] unknownCentre
     (List.mem_singleton.mpr rfl) (by decide),
   by decide,
   C4_amended_construction.2.2 [.cuboid (solvedPiece [.U])] (by decide)
     (by
       intro i hi
       rw [List.mem_singleton] at hi
       subst hi
       exact ⟨solvedPiece [.U], rfl, by decide, by decide⟩)⟩

/-- C5: set(key, newPiece) with a piece whose kind differs from the piece
    currently stored at the key, or whose location set differs from the key,
    raises a ValidationError (a ValueError); both checks precede the commit,
    so no state is produced and the Puzzle is unchanged. -/
theorem C5_setitem_validation (c : Cube) (k : Finset Face) (v q : Cuboid)
    (hq : c.getitem k = .ok q) (hqt : q.type.isSome = true) (hvt : v.type.isSome = true)
    (hbad : q.type ≠ v.type ∨ v.location ≠ k) :
    ∃ msg, c.setitem k v = .error (.valueError msg) := by
  rcases Option.isSome_iff_exists.mp hqt with ⟨qt, hqt2⟩
  rcases Option.isSome_iff_exists.mp hvt with ⟨vt, hvt2⟩
  have hfind : findPiece c.children k = some q := by
    unfold Cube.getitem at hq
    cases hf : findPiece c.children k with
    | some cb =>
      rw [hf] at hq
      cases hq
      rfl
    | none =>
      rw [hf] at hq
      cases hq
  have hql : q.location = k := (findPiece_loc hfind).1
  unfold Cube.setitem
  rw [hq]
  simp only [except_ok_bind, typeAttr, hqt2, hvt2]
  by_cases hne : qt = vt
  · have hloc : v.location ≠ k := by
      rcases hbad with h | h
      · exact absurd (by rw [hqt2, hvt2, hne]) h
      · exact h
    rw [if_neg (by simp [hne])]
    rw [if_pos (by rw [hql]; exact fun he => hloc he.symm)]
    exact ⟨_, rfl⟩
  · rw [if_pos hne]
    exact ⟨_, rfl⟩

/-- C5 witness: replacing the U centre of the solved cube by an F centre is a
    location mismatch and is rejected. -/
theorem C5_setitem_validation_witness :
    (Cube.default.getitem (fs [.U]) = .ok (solvedPiece [.U])) ∧
    ((solvedPiece [.U]).type.isSome = true) ∧
    ((solvedPiece [.F]).type.isSome = true) ∧
    ((solvedPiece [.U]).type ≠ (solvedPiece [.F]).type ∨
      (solvedPiece [.F]).location ≠ fs [.U]) ∧
    ∃ msg, Cube.default.setitem (fs [.U]) (solvedPiece [.F]) =
      .error (.valueError msg) :=
  ⟨by decide, by decide, by decide, by decide,
   C5_setitem_validation Cube.default (fs [.U]) (solvedPiece [.F]) (solvedPiece [.U])
     (by decide) (by decide) (by decide) (by decide)⟩

/-- C6: on the solved Puzzle project(U) is a 3x3 grid of nine yellow
    stickers, and after one clockwise R move the rightmost column of
    project(U) equals the rightmost column project(F) returned before the
    move. -/
theorem C6_projection_scenario :
    (Cube.default.get_face "U").map gridCells =
      .ok (List.replicate 9 (some Colour.yellow)) ∧
    ((do
        let c₂ ← Cube.default.perform_step (quarter .R)
        c₂.get_face "U").map rightCol =
      (Cube.default.get_face "F").map rightCol) := by decide

/-- C7 counterexample: on the solved cube the whole-cube move x with both the
    inverse and double flags set, and with only the double flag set, both
    succeed but produce different states (the source elif applies only the
    inversion to the expansion sub-moves). -/
theorem C7_counter_wide_double_inverse :
    stateEqB (Cube.default.perform_step ⟨.x, true, true⟩)
      (Cube.default.perform_step ⟨.x, false, true⟩) = false ∧
    (Cube.default.perform_step ⟨.x, true, true⟩).isOk = true ∧
    (Cube.default.perform_step ⟨.x, false, true⟩).isOk = true := by decide

/-- C7 amended: for the single-layer and slice designators, applying a move
    with both the inverse and double flags set yields a state equal to
    applying it with only the double flag, on every well-formed state; for
    wide and whole-cube designators the engine instead applies the plain
    inverse quarter rotation. -/
theorem C7_double_inverse_single_layer (c : Cube) (hWF : c.WF) (sf : StepFace)
    (hsf : sf ∈ slFaceList) :
    ∃ ca cb, c.perform_step ⟨sf, true, true⟩ = .ok ca ∧
      c.perform_step ⟨sf, false, true⟩ = .ok cb ∧ ca.dictEq cb := by
  rcases c7_mem sf hsf with ⟨hm1, hm2⟩
  rcases perform_step_sl ⟨sf, true, true⟩ hm1 c hWF with ⟨ca, ha1, ha2, ha3⟩
  rcases perform_step_sl ⟨sf, false, true⟩ hm2 c hWF with ⟨cb, hb1, hb2, hb3⟩
  refine ⟨ca, cb, ha1, hb1, dictEq_of_views ha2 hb2 ?_⟩
  intro k hk
  rw [ha3 k hk, hb3 k hk]
  calc moveView ⟨sf, true, true⟩ c.view k
      = shifted ⟨sf, true, true⟩ (sigInv ⟨sf, false, true⟩) c.view k :=
        shifted_congr_tau _ _ _ (c7_sig sf hsf) c.view k
    _ = shifted ⟨sf, false, true⟩ (sigInv ⟨sf, false, true⟩) c.view k :=
        shifted_congr_step _ _ rfl _ c.view k

/-- C7 amended witness: the slice move M on the default cube. -/
theorem C7_double_inverse_single_layer_witness :
    Cube.default.WF ∧ StepFace.M ∈ slFaceList ∧
    (∃ ca cb, Cube.default.perform_step ⟨.M, true, true⟩ = .ok ca ∧
      Cube.default.perform_step ⟨.M, false, true⟩ = .ok cb ∧ ca.dictEq cb) :=
  ⟨default_WF, by decide,
   C7_double_inverse_single_layer Cube.default default_WF .M (by decide)⟩

/-- C8 counterexample: LEFT is a case-insensitive spelling of the long form
    left, yet get_face rejects it; only the exact lowercase long forms are in
    the accepted token list. -/
theorem C8_counter_uppercase_long_form :
    "LEFT".toList.map Char.toLower = "left".toList ∧
    Cube.default.get_face "LEFT" = .error (.valueError "Face must be L U F D R B") ∧
    (Cube.default.get_face "left").isOk = true :=
  ⟨by decide, rfl, by decide⟩

/-- C8 amended: get_face accepts exactly the six canonical single letters and
    the six exact lowercase long forms (each producing a grid on the default
    cube) and raises a ValidationError on every other token. -/
theorem C8_face_tokens :
    (∀ (c : Cube) (tok : String), tok ∉ faceTokens →
      c.get_face tok = .error (.valueError "Face must be L U F D R B")) ∧
    (∀ tok ∈ faceTokens, (Cube.default.get_face tok).isOk = true) := by
  constructor
  · intro c tok htok
    unfold Cube.get_face
    rw [if_neg htok]
  · decide

/-- C8 amended witness: a junk token is rejected, the letter U is accepted. -/
theorem C8_face_tokens_witness :
    ("Z" ∉ faceTokens) ∧
    Cube.default.get_face "Z" = .error (.valueError "Face must be L U F D R B") ∧
    ("U" ∈ faceTokens) ∧ (Cube.default.get_face "U").isOk = true :=
  ⟨by decide, C8_face_tokens.1 Cube.default "Z" (by decide), by decide,
   C8_face_tokens.2 "U" (by decide)⟩

/-- C9: constructing a Sticker with colour unknown succeeds, but hashing an
    unknown-coloured sticker raises a KeyError (the colour-to-hex table has
    no unknown entry), while hashing any of the six fixed colours succeeds -
    so unknown stickers cannot be placed in the hash-based containers. -/
theorem C9_unknown_hash (strHash : Nat) :
    Square.init "unknown" = .ok .unknown ∧
    Square.hash strHash .unknown = .error (.keyError "unknown") ∧
    (Square.hash strHash .red).isOk = true ∧
    (Square.hash strHash .yellow).isOk = true ∧
    (Square.hash strHash .green).isOk = true ∧
    (Square.hash strHash .white).isOk = true ∧
    (Square.hash strHash .orange).isOk = true ∧
    (Square.hash strHash .blue).isOk = true :=
  ⟨by decide, rfl, rfl, rfl, rfl, rfl, rfl, rfl⟩

/-- C10: for every well-formed Puzzle whose stickers all carry hashable
    colours (the only Puzzles the source can materialise, since __init__
    hashes every sticker during construction), copy succeeds and the copy
    compares equal to the original; the copy is rebuilt from fresh pieces, so
    in this purely functional embedding later moves on it leave the original
    term untouched by construction. -/
theorem C10_copy_equal (c : Cube) (hWF : c.WF)
    (hh : ∀ cb ∈ c.children, squaresHashable cb.facings = true) :
    ∃ c₂, c.copy = .ok c₂ ∧ c₂.dictEq c ∧ c₂.WF := by
  rcases copy_ok hWF hh with ⟨c₂, h1, h2, h3⟩
  exact ⟨c₂, h1, h3, h2⟩

/-- C10 witness: the default cube. -/
theorem C10_copy_equal_witness :
    Cube.default.WF ∧
    (∀ cb ∈ Cube.default.children, squaresHashable cb.facings = true) ∧
    ∃ c₂, Cube.default.copy = .ok c₂ ∧ c₂.dictEq Cube.default ∧ c₂.WF :=
  ⟨default_WF, by decide, C10_copy_equal Cube.default default_WF (by decide)⟩

/-- C9 witness: the hash behaviour at the string hash value 0. -/
theorem C9_unknown_hash_witness :
    Square.init "unknown" = .ok .unknown ∧
    Square.hash 0 .unknown = .error (.keyError "unknown") ∧
    (Square.hash 0 .red).isOk = true ∧
    (Square.hash 0 .yellow).isOk = true ∧
    (Square.hash 0 .green).isOk = true ∧
    (Square.hash 0 .white).isOk = true ∧
    (Square.hash 0 .orange).isOk = true ∧
    (Square.hash 0 .blue).isOk = true :=
  C9_unknown_hash 0
